import Mathlib

/-!
# Verification of the Bushmaster voxel ray-tracer acceleration structures

Shallow embedding, in Lean 4, of the BVH subsystem of the Bushmaster
repository (TypeScript + WGSL):

* `src/engine/voxel/util/aabb.ts`      — axis-aligned bounding boxes,
* `src/engine/voxel/voxel.ts`          — voxel value objects,
* `src/engine/render/bvh/blas.ts`      — bottom-level octree build,
* `src/engine/render/bvh/tlas.ts`      — top-level SAH build,
* `src/engine/app.ts` (VoxelScene)     — scene bookkeeping,
* `src/engine/shaders/raytrace/bvh/bvhTraverse.wgsl` — two-level traversal.

Numbers on the CPU build paths are embedded as dyadic rationals: the type
`Dy` below represents `num / 2 ^ exp` exactly, and every quantity the
verified build claims depend on is produced from integer inputs by
`+ - * min max`, order comparisons and division by two — operations under
which dyadics are closed and which agree exactly with JavaScript `number`
(binary floating-point) semantics on all inputs exercised here (no
rounding, no overflow, no NaN on these code paths).  `Dy` is chosen over
`ℚ` so that concrete builds evaluate inside the kernel (`ℚ` normalises
through `Nat.gcd`, which does not reduce there); the lemmas `Dy.leb_iff`
and `Dy.ltb_iff` transfer its comparisons to the rational order via
`Dy.toQ`.  The JavaScript `Infinity` sentinels used by the `AABB`
constructor are embedded by the extended type `XQ` below for the claim
about `expandByAABB`; the build code, which only ever reads a box after
expanding the empty sentinel by at least one finite point, is embedded
over finite boxes with the empty-seeded min/max folds started at their
first element (`Math.min(Infinity, x) = x` and
`Math.max(-Infinity, x) = x`, so both computations agree pointwise).  The
WGSL traversal loops only compare, copy and select distances, so they are
embedded generically over the numeric kernels (`hit_aabb`,
`hit_triangle`, `normalize`), which are parameters of `TraceCtx`.
-/

/-- Extended rationals: the value space of JS `number` coordinates including
the `Infinity` / `-Infinity` sentinels that `new AABB()` starts from
(aabb.ts line 16–17).  NaN never arises on the embedded paths. -/
inductive XQ where
  | negInf : XQ
  | fin : ℚ → XQ
  | posInf : XQ
deriving DecidableEq, Repr

namespace XQ

/-- JS `<=` on extended numbers (no NaN). -/
def leb : XQ → XQ → Bool
  | negInf, _ => true
  | _, posInf => true
  | posInf, _ => false
  | _, negInf => false
  | fin a, fin b => a ≤ b

/-- JS `Math.min` on extended numbers (no NaN). -/
def xmin : XQ → XQ → XQ
  | negInf, _ => negInf
  | _, negInf => negInf
  | posInf, y => y
  | x, posInf => x
  | fin a, fin b => fin (min a b)

/-- JS `Math.max` on extended numbers (no NaN). -/
def xmax : XQ → XQ → XQ
  | posInf, _ => posInf
  | _, posInf => posInf
  | negInf, y => y
  | x, negInf => x
  | fin a, fin b => fin (max a b)

theorem xmin_eq_left {a b : XQ} (h : leb a b = true) : xmin a b = a := by
  cases a <;> cases b <;> simp_all [leb, xmin]

theorem xmax_eq_left {a b : XQ} (h : leb b a = true) : xmax a b = a := by
  cases a <;> cases b <;> simp_all [leb, xmax]

end XQ

/-- A 3-vector of extended rationals. -/
structure XVec3 where
  x : XQ
  y : XQ
  z : XQ
deriving DecidableEq, Repr

/-- Componentwise `Math.min` on extended vectors. -/
def xvmin (a b : XVec3) : XVec3 :=
  ⟨XQ.xmin a.x b.x, XQ.xmin a.y b.y, XQ.xmin a.z b.z⟩

/-- Componentwise `Math.max` on extended vectors. -/
def xvmax (a b : XVec3) : XVec3 :=
  ⟨XQ.xmax a.x b.x, XQ.xmax a.y b.y, XQ.xmax a.z b.z⟩

/-- The `AABB` class of aabb.ts over extended coordinates, covering the
`[Infinity,Infinity,Infinity] / [-Infinity,-Infinity,-Infinity]` empty
sentinel produced by the zero-argument constructor. -/
structure AABBX where
  min : XVec3
  max : XVec3
deriving DecidableEq, Repr

namespace AABBX

/-- aabb.ts `expandByPoint` (lines 44–56): grows the box to include a point. -/
def expandByPoint (a : AABBX) (p : XVec3) : AABBX :=
  { min := xvmin a.min p, max := xvmax a.max p }

/-- aabb.ts `expandByAABB` (lines 61–64): expand by the other box's min then
its max corner. -/
def expandByAABB (a b : AABBX) : AABBX :=
  expandByPoint (expandByPoint a b.min) b.max

/-- aabb.ts `containsPoint` (lines 69–75): componentwise
`min ≤ point ∧ point ≤ max`, as the JS `>=`/`<=` conjunction. -/
def containsPoint (a : AABBX) (p : XVec3) : Bool :=
  XQ.leb a.min.x p.x && XQ.leb p.x a.max.x &&
  (XQ.leb a.min.y p.y && XQ.leb p.y a.max.y) &&
  (XQ.leb a.min.z p.z && XQ.leb p.z a.max.z)

/-- aabb.ts `containsAABB` (lines 80–85): contains both corners. -/
def containsAABB (a b : AABBX) : Bool :=
  containsPoint a b.min && containsPoint a b.max

end AABBX

/-- **C10.** For all AABBs `a` and `b` with `containsAABB(a, b)`,
`expandByAABB(a, b)` leaves `a`'s `min` and `max` componentwise unchanged:
expanding by an already-contained box is the identity. -/
theorem C10_expandByAABB_of_contains (a b : AABBX)
    (h : AABBX.containsAABB a b = true) : AABBX.expandByAABB a b = a := by
  obtain ⟨⟨ax, ay, az⟩, ⟨bx, by_, bz⟩⟩ := a
  obtain ⟨⟨cx, cy, cz⟩, ⟨dx, dy, dz⟩⟩ := b
  simp only [AABBX.containsAABB, AABBX.containsPoint, Bool.and_eq_true] at h
  obtain ⟨⟨⟨⟨h1, h2⟩, h3, h4⟩, h5, h6⟩, ⟨⟨h7, h8⟩, h9, h10⟩, h11, h12⟩ := h
  simp only [AABBX.expandByAABB, AABBX.expandByPoint, xvmin, xvmax]
  rw [XQ.xmin_eq_left h1, XQ.xmin_eq_left h3, XQ.xmin_eq_left h5,
      XQ.xmax_eq_left h2, XQ.xmax_eq_left h4, XQ.xmax_eq_left h6,
      XQ.xmin_eq_left h7, XQ.xmin_eq_left h9, XQ.xmin_eq_left h11,
      XQ.xmax_eq_left h8, XQ.xmax_eq_left h10, XQ.xmax_eq_left h12]

/-- Witness for C10 at concrete boxes: `[-1,2]³` contains `[0,1]³`. -/
theorem C10_witness :
    AABBX.containsAABB
        ⟨⟨.fin (-1), .fin (-1), .fin (-1)⟩, ⟨.fin 2, .fin 2, .fin 2⟩⟩
        ⟨⟨.fin 0, .fin 0, .fin 0⟩, ⟨.fin 1, .fin 1, .fin 1⟩⟩ = true ∧
    AABBX.expandByAABB
        ⟨⟨.fin (-1), .fin (-1), .fin (-1)⟩, ⟨.fin 2, .fin 2, .fin 2⟩⟩
        ⟨⟨.fin 0, .fin 0, .fin 0⟩, ⟨.fin 1, .fin 1, .fin 1⟩⟩ =
      ⟨⟨.fin (-1), .fin (-1), .fin (-1)⟩, ⟨.fin 2, .fin 2, .fin 2⟩⟩ :=
  ⟨by decide, C10_expandByAABB_of_contains _ _ (by decide)⟩

/-! ## Dyadic coordinates

Every arithmetic operation performed by the embedded build code is
`+ - * min max`, order comparison, or division by `2` (`getCenter`,
`size/2`).  Binary floating-point numbers are dyadic rationals and these
operations are exact on them (no rounding occurs on the small scenes and
unit-scale geometry the claims quantify over), so coordinates are embedded
as exact dyadic rationals `num / 2^exp`.  The representation is not
normalized; `Dy.toQ` maps it to `ℚ` and `Dy.leb_iff` transfers the
comparison, which is all the general proofs need. -/

/-- A dyadic rational `num / 2^exp`. -/
structure Dy where
  num : ℤ
  exp : ℕ
deriving DecidableEq, Repr

namespace Dy

/-- The rational value of a dyadic. -/
def toQ (a : Dy) : ℚ := (a.num : ℚ) / 2 ^ a.exp

/-- Exact addition. -/
def add (a b : Dy) : Dy :=
  ⟨a.num * 2 ^ (max a.exp b.exp - a.exp) + b.num * 2 ^ (max a.exp b.exp - b.exp),
   max a.exp b.exp⟩

/-- Exact negation. -/
def neg (a : Dy) : Dy := ⟨-a.num, a.exp⟩

/-- Exact subtraction. -/
def sub (a b : Dy) : Dy := add a (neg b)

/-- Exact multiplication. -/
def mul (a b : Dy) : Dy := ⟨a.num * b.num, a.exp + b.exp⟩

/-- Exact halving: the only division the build code performs. -/
def half (a : Dy) : Dy := ⟨a.num, a.exp + 1⟩

/-- Embed an integer. -/
def ofInt (n : ℤ) : Dy := ⟨n, 0⟩

instance : OfNat Dy n := ⟨ofInt n⟩

/-- The JS `<=` comparison, by cross-multiplication to a common
denominator. -/
def leb (a b : Dy) : Bool :=
  a.num * 2 ^ (max a.exp b.exp - a.exp) ≤ b.num * 2 ^ (max a.exp b.exp - b.exp)

/-- The JS `<` comparison. -/
def ltb (a b : Dy) : Bool := !(leb b a)

/-- JS `Math.min` on two (non-NaN) numbers. -/
def minD (a b : Dy) : Dy := if leb a b then a else b

/-- JS `Math.max` on two (non-NaN) numbers. -/
def maxD (a b : Dy) : Dy := if leb a b then b else a

theorem toQ_eq_shift {m : ℤ} {e1 e : ℕ} (h : e1 ≤ e) :
    toQ ⟨m, e1⟩ = ((m * 2 ^ (e - e1) : ℤ) : ℚ) / 2 ^ e := by
  rw [toQ]
  push_cast
  rw [div_eq_div_iff (by positivity) (by positivity), mul_assoc, ← pow_add]
  congr 2
  omega

/-- The comparison agrees with the rational order. -/
theorem leb_iff {a b : Dy} : leb a b = true ↔ toQ a ≤ toQ b := by
  obtain ⟨m, e1⟩ := a
  obtain ⟨n, e2⟩ := b
  rw [leb, decide_eq_true_eq,
    toQ_eq_shift (le_max_left e1 e2), toQ_eq_shift (le_max_right e1 e2),
    div_le_div_iff₀ (show (0:ℚ) < 2 ^ (max e1 e2) by positivity)
      (show (0:ℚ) < 2 ^ (max e1 e2) by positivity),
    mul_le_mul_right (show (0:ℚ) < 2 ^ (max e1 e2) by positivity)]
  dsimp only
  exact Int.cast_le.symm

/-- The strict comparison agrees with the rational order. -/
theorem ltb_iff {a b : Dy} : ltb a b = true ↔ toQ a < toQ b := by
  rw [ltb, Bool.not_eq_true']
  rw [← not_le]
  constructor
  · intro h hc
    exact absurd (leb_iff.mpr hc) (by simp [h])
  · intro h
    by_contra hc
    exact h (leb_iff.mp (Bool.not_eq_false _ ▸ hc))

end Dy
/-! ## Finite AABBs (blas.ts / tlas.ts build paths)

The build code only ever reads a box after expanding the `±Infinity`
sentinel by at least one finite point, and
`Math.min(Infinity, x) = x = Math.max(-Infinity, x)`, so all boxes that
are read are finite; they are embedded with rational corners, and each
empty-seeded expansion fold is started at its first expansion argument,
which is pointwise equal to the JS computation. -/

/-- A 3-component vector of dyadic coordinates, the embedding of a JS
`[number, number, number]` on the build paths. -/
structure Vec3 where
  x : Dy
  y : Dy
  z : Dy
deriving DecidableEq, Repr

/-- Componentwise `Math.min`. -/
def vmin (a b : Vec3) : Vec3 :=
  ⟨Dy.minD a.x b.x, Dy.minD a.y b.y, Dy.minD a.z b.z⟩

/-- Componentwise `Math.max`. -/
def vmax (a b : Vec3) : Vec3 :=
  ⟨Dy.maxD a.x b.x, Dy.maxD a.y b.y, Dy.maxD a.z b.z⟩

/-- The `AABB` class of aabb.ts restricted to finite coordinates. -/
structure AABB where
  min : Vec3
  max : Vec3
deriving DecidableEq, Repr

namespace AABB

/-- aabb.ts `expandByPoint` (lines 44–56). -/
def expandByPoint (a : AABB) (p : Vec3) : AABB :=
  { min := vmin a.min p, max := vmax a.max p }

/-- aabb.ts `expandByAABB` (lines 61–64). -/
def expandByAABB (a b : AABB) : AABB :=
  expandByPoint (expandByPoint a b.min) b.max

/-- aabb.ts `surfaceArea` (lines 33–39): `2·(wh + hd + dw)`. -/
def surfaceArea (a : AABB) : Dy :=
  let width := Dy.sub a.max.x a.min.x
  let height := Dy.sub a.max.y a.min.y
  let depth := Dy.sub a.max.z a.min.z
  Dy.mul 2 (Dy.add (Dy.add (Dy.mul width height) (Dy.mul height depth))
    (Dy.mul depth width))

/-- aabb.ts `getCenter` (lines 101–107): `(min + max) / 2` componentwise. -/
def getCenter (a : AABB) : Vec3 :=
  ⟨Dy.half (Dy.add a.min.x a.max.x), Dy.half (Dy.add a.min.y a.max.y),
   Dy.half (Dy.add a.min.z a.max.z)⟩

end AABB

/-- voxel.ts `Voxel` (unnamed source `part_015`): a positioned cubic
primitive.  `getMin`/`getMax` are the corners precomputed in the
constructor, derived from `position ± size/2`. -/
structure Voxel where
  position : Vec3
  size : Dy
  materialIdx : ℕ
  lodLevel : ℕ
  occupancyMask : ℕ
deriving DecidableEq, Repr

namespace Voxel

/-- The cached `minCorner`: `position - size/2` componentwise. -/
def getMin (v : Voxel) : Vec3 :=
  ⟨Dy.sub v.position.x (Dy.half v.size), Dy.sub v.position.y (Dy.half v.size),
   Dy.sub v.position.z (Dy.half v.size)⟩

/-- The cached `maxCorner`: `position + size/2` componentwise. -/
def getMax (v : Voxel) : Vec3 :=
  ⟨Dy.add v.position.x (Dy.half v.size), Dy.add v.position.y (Dy.half v.size),
   Dy.add v.position.z (Dy.half v.size)⟩

end Voxel

instance : Inhabited Voxel := ⟨⟨⟨0, 0, 0⟩, 0, 0, 0, 0⟩⟩

/-- bvhStructures.ts `BLASNode`. -/
structure BLASNode where
  aabb : AABB
  isLeaf : Bool
  firstChildOrVoxelIndex : ℕ
  childCount : ℕ
  materialIdx : ℕ
  occupancyMask : ℕ
  lodLevel : ℕ
deriving DecidableEq, Repr

instance : Inhabited BLASNode :=
  ⟨⟨⟨⟨0, 0, 0⟩, ⟨0, 0, 0⟩⟩, false, 0, 0, 0, 0, 0⟩⟩

/-- blas.ts `getOctantIndex` (lines 174–180): one bit per axis of
`point[i] >= center[i]`. -/
def getOctantIndex (point center : Vec3) : ℕ :=
  (if Dy.leb center.x point.x then 1 else 0) +
  (if Dy.leb center.y point.y then 2 else 0) +
  (if Dy.leb center.z point.z then 4 else 0)

/-- blas.ts `calculateOctantAABB` (lines 185–212); the `center` argument is
always supplied at the one call site (line 137), so the `center ||`
recomputation default is never taken. -/
def calculateOctantAABB (parent : AABB) (octantIdx : ℕ) (center : Vec3) : AABB :=
  { min := ⟨if octantIdx.testBit 0 then center.x else parent.min.x,
            if octantIdx.testBit 1 then center.y else parent.min.y,
            if octantIdx.testBit 2 then center.z else parent.min.z⟩,
    max := ⟨if octantIdx.testBit 0 then parent.max.x else center.x,
            if octantIdx.testBit 1 then parent.max.y else center.y,
            if octantIdx.testBit 2 then parent.max.z else center.z⟩ }

/-- blas.ts lines 116–123: bucket the node's voxels into the 8 octants and
keep, in octant order, the non-empty buckets together with their octant
index (the order in which lines 129–153 visit them). -/
def octantParts (nodeVoxels : List Voxel) (center : Vec3) : List (ℕ × List Voxel) :=
  (List.range 8).filterMap (fun i =>
    let part := nodeVoxels.filter (fun v => getOctantIndex v.position center == i)
    if part.isEmpty then none else some (i, part))

/-- The child-node template of blas.ts lines 140–148. -/
def initChildNode (childAABB : AABB) (childLod : ℕ) : BLASNode :=
  { aabb := childAABB, isLeaf := false, firstChildOrVoxelIndex := 0,
    childCount := 0, materialIdx := 0, occupancyMask := 0xFF,
    lodLevel := childLod }

/-- The leaf update of blas.ts lines 97–109: mark the node a leaf holding
the first voxel of the node's subset, located in the full voxel array by
`indexOf`. -/
def makeLeaf (voxelsAll : List Voxel) (st : List BLASNode) (nodeIdx : ℕ)
    (nodeVoxels : List Voxel) : List BLASNode :=
  let node := st.getD nodeIdx default
  let voxel := nodeVoxels.headD default
  st.set nodeIdx { node with
    isLeaf := true
    firstChildOrVoxelIndex := voxelsAll.indexOf voxel
    childCount := 0
    materialIdx := voxel.materialIdx
    occupancyMask := voxel.occupancyMask
    lodLevel := voxel.lodLevel }

/-- The loop of blas.ts lines 129–153: allocate one child node per
non-empty octant and, before the next octant is visited, recurse into it
(`go`, which is `subdivideNode` at the decremented LOD).  Returns the new
node list, the `childIndices` array of line 126, and the ghost audit
accumulated by the recursive calls. -/
def subdivideChildren (go : List BLASNode → ℕ → List Voxel →
      List BLASNode × List (ℕ × List ℕ))
    (st : List BLASNode) (parentAABB : AABB) (center : Vec3)
    (childLod : ℕ) : List (ℕ × List Voxel) →
      List BLASNode × List ℕ × List (ℕ × List ℕ)
  | [] => (st, [], [])
  | (i, part) :: rest =>
    let childIdx := st.length
    let childAABB := calculateOctantAABB parentAABB i center
    let st1 := st ++ [initChildNode childAABB childLod]
    let res := go st1 childIdx part
    let res2 := subdivideChildren go res.1 parentAABB center childLod rest
    (res2.1, childIdx :: res2.2.1, res.2 ++ res2.2.2)

/-- blas.ts `subdivideNode` (lines 93–169).  The node array is embedded as a
list (`this.nodeCount++` always allocates the next unwritten slot, so
allocation is a list append); alongside it we return a ghost audit list
recording, for every node that ends up internal, the indices of the child
nodes actually created for it (the `childIndices` array of line 126) —
data the TS code computes and then forgets, keeping only
`childIndices[0]` and `childCount`.  The audit does not influence the
node array.  The TS guard `currentLod === 0 || nodeVoxels.length === 1`
is split over the two `match` arms so that the recursion is structural in
`currentLod`.  The `voxelToNodeMap` bookkeeping (lines 42, 108) is
write-only in the repository and is not embedded. -/
def subdivideNode (voxelsAll : List Voxel) :
    (currentLod : ℕ) → List BLASNode → ℕ → List Voxel →
      List BLASNode × List (ℕ × List ℕ)
  | 0, st, nodeIdx, nodeVoxels => (makeLeaf voxelsAll st nodeIdx nodeVoxels, [])
  | lod + 1, st, nodeIdx, nodeVoxels =>
    if nodeVoxels.length = 1 then
      (makeLeaf voxelsAll st nodeIdx nodeVoxels, [])
    else
      let node := st.getD nodeIdx default
      let center := node.aabb.getCenter
      let parts := octantParts nodeVoxels center
      let res := subdivideChildren (subdivideNode voxelsAll lod) st node.aabb
        center lod parts
      let childIndices := res.2.1
      if childIndices.length > 0 then
        (res.1.set nodeIdx { node with
            isLeaf := false
            firstChildOrVoxelIndex := childIndices.headD 0
            childCount := childIndices.length },
         res.2.2 ++ [(nodeIdx, childIndices)])
      else
        (res.1.set nodeIdx { node with
            isLeaf := true
            firstChildOrVoxelIndex := voxelsAll.indexOf (nodeVoxels.headD default)
            childCount := 0 }, res.2.2)

/-- blas.ts line 49: `Math.max(0, ...voxels.map(v => v.lodLevel))`. -/
def maxLodLevel (voxels : List Voxel) : ℕ :=
  voxels.foldl (fun m v => max m v.lodLevel) 0

/-- blas.ts lines 67–73: the root AABB, expanded from the empty sentinel by
every voxel's min and max corner.  The fold is started at the first
expansion point; expanding the `±Infinity` empty box by a point `p` yields
exactly the box `(p, p)`. -/
def rootAABBOf (voxels : List Voxel) : AABB :=
  match voxels.flatMap (fun v => [v.getMin, v.getMax]) with
  | [] => ⟨⟨0, 0, 0⟩, ⟨0, 0, 0⟩⟩
  | p :: rest => rest.foldl AABB.expandByPoint ⟨p, p⟩

/-- blas.ts `constructor` + `buildTree` (lines 44–88) for a voxel list:
the root node (lines 76–84) followed by the recursive subdivision.  The
first component is `nodes[0 .. nodeCount)`; the second is the ghost
child-index audit. -/
def blasBuild (voxels : List Voxel) : List BLASNode × List (ℕ × List ℕ) :=
  let maxLod := maxLodLevel voxels
  let root : BLASNode :=
    { aabb := rootAABBOf voxels, isLeaf := false, firstChildOrVoxelIndex := 0,
      childCount := 0, materialIdx := 0, occupancyMask := 0xFF,
      lodLevel := maxLod }
  subdivideNode voxels maxLod [root] 0 voxels

/-- The voxel indices referenced by the leaf nodes of a node list. -/
def leafRefs (st : List BLASNode) : List ℕ :=
  (st.filter (fun nd => nd.isLeaf)).map (fun nd => nd.firstChildOrVoxelIndex)

/-! ## Structural invariants of the BLAS build -/

theorem octantParts_mem {nodeVoxels : List Voxel} {center : Vec3}
    {p : ℕ × List Voxel} (hp : p ∈ octantParts nodeVoxels center) :
    p.2 = nodeVoxels.filter
        (fun v => getOctantIndex v.position center == p.1) ∧ p.2 ≠ [] := by
  rw [octantParts, List.mem_filterMap] at hp
  obtain ⟨i, -, hi⟩ := hp
  by_cases he : (nodeVoxels.filter
      (fun v => getOctantIndex v.position center == i)).isEmpty
  · simp [he] at hi
  · rw [if_neg he, Option.some.injEq] at hi
    subst hi
    exact ⟨rfl, by simpa [List.isEmpty_iff] using he⟩

theorem octantParts_sub {nodeVoxels : List Voxel} {center : Vec3}
    {p : ℕ × List Voxel} (hp : p ∈ octantParts nodeVoxels center) :
    p.2 ⊆ nodeVoxels := by
  rw [(octantParts_mem hp).1]
  exact fun v hv => (List.mem_filter.mp hv).1

theorem octantParts_oct {nodeVoxels : List Voxel} {center : Vec3}
    {p : ℕ × List Voxel} (hp : p ∈ octantParts nodeVoxels center) :
    ∀ v ∈ p.2, getOctantIndex v.position center = p.1 := by
  intro v hv
  rw [(octantParts_mem hp).1] at hv
  simpa using (List.mem_filter.mp hv).2

theorem octantParts_shape {nodeVoxels : List Voxel} {center : Vec3} {i : ℕ}
    {p : ℕ × List Voxel}
    (hp : p ∈ (if (nodeVoxels.filter
        (fun v => getOctantIndex v.position center == i)).isEmpty then none
      else some (i, nodeVoxels.filter
        (fun v => getOctantIndex v.position center == i)))) :
    p.1 = i ∧ p.2 = nodeVoxels.filter
      (fun v => getOctantIndex v.position center == i) := by
  by_cases he : (nodeVoxels.filter
      (fun v => getOctantIndex v.position center == i)).isEmpty
  · simp [he] at hp
  · rw [Option.mem_def, if_neg he, Option.some.injEq] at hp
    subst hp
    exact ⟨rfl, rfl⟩

theorem octantParts_pairwise_disj (nodeVoxels : List Voxel) (center : Vec3) :
    (octantParts nodeVoxels center).Pairwise (fun p q => p.2.Disjoint q.2) := by
  rw [octantParts]
  refine List.Pairwise.filterMap _ ?_ (List.pairwise_lt_range 8)
  intro i j hij p hp q hq
  obtain ⟨hp1, hp2⟩ := octantParts_shape hp
  obtain ⟨hq1, hq2⟩ := octantParts_shape hq
  intro v hvp hvq
  rw [hp2] at hvp
  rw [hq2] at hvq
  have h1 := (List.mem_filter.mp hvp).2
  have h2 := (List.mem_filter.mp hvq).2
  simp only [beq_iff_eq] at h1 h2
  omega

theorem octantParts_ne_nil {nodeVoxels : List Voxel} {center : Vec3}
    (h : nodeVoxels ≠ []) : octantParts nodeVoxels center ≠ [] := by
  obtain ⟨v, hv⟩ := List.exists_mem_of_ne_nil _ h
  have hlt : getOctantIndex v.position center < 8 := by
    rw [getOctantIndex]
    split_ifs <;> omega
  have hvf : v ∈ nodeVoxels.filter
      (fun w => getOctantIndex w.position center == getOctantIndex v.position center) := by
    rw [List.mem_filter]
    exact ⟨hv, by simp⟩
  have hne : ¬ (nodeVoxels.filter
      (fun w => getOctantIndex w.position center ==
        getOctantIndex v.position center)).isEmpty := by
    rw [List.isEmpty_iff]
    intro hc
    rw [hc] at hvf
    exact absurd hvf (List.not_mem_nil v)
  intro hcon
  have : (getOctantIndex v.position center,
      nodeVoxels.filter (fun w => getOctantIndex w.position center ==
        getOctantIndex v.position center)) ∈ octantParts nodeVoxels center := by
    rw [octantParts, List.mem_filterMap]
    refine ⟨getOctantIndex v.position center, List.mem_range.mpr hlt, ?_⟩
    rw [if_neg hne]
  rw [hcon] at this
  exact absurd this (List.not_mem_nil _)

theorem leafRefs_append (l1 l2 : List BLASNode) :
    leafRefs (l1 ++ l2) = leafRefs l1 ++ leafRefs l2 := by
  rw [leafRefs, List.filter_append, List.map_append]
  rfl

/-- The postcondition of one `subdivideNode` call: the node array gains the
final value `P` of the subdivided node plus a block `tail` of new
descendants, and the leaf nodes among these reference exactly the
`indexOf` position of the head of one subset per leaf, the subsets being
non-empty, drawn from the call's voxel subset, and pairwise disjoint. -/
def NodeBuildSpec (voxelsAll : List Voxel) (lod : ℕ) : Prop :=
  ∀ (st : List BLASNode) (nodeIdx : ℕ) (nodeVoxels : List Voxel),
    nodeIdx < st.length → nodeVoxels ≠ [] →
    ∃ (P : BLASNode) (tail : List BLASNode) (subs : List (List Voxel)),
      (subdivideNode voxelsAll lod st nodeIdx nodeVoxels).1 =
        st.set nodeIdx P ++ tail ∧
      leafRefs (P :: tail) =
        subs.map (fun S => voxelsAll.indexOf (S.headD default)) ∧
      (∀ S ∈ subs, S ≠ [] ∧ S ⊆ nodeVoxels) ∧
      subs.Pairwise List.Disjoint

theorem makeLeaf_case (voxelsAll : List Voxel) (st : List BLASNode)
    (nodeIdx : ℕ) (nodeVoxels : List Voxel) (hn : nodeVoxels ≠ []) :
    ∃ (P : BLASNode) (tail : List BLASNode) (subs : List (List Voxel)),
      makeLeaf voxelsAll st nodeIdx nodeVoxels = st.set nodeIdx P ++ tail ∧
      leafRefs (P :: tail) =
        subs.map (fun S => voxelsAll.indexOf (S.headD default)) ∧
      (∀ S ∈ subs, S ≠ [] ∧ S ⊆ nodeVoxels) ∧
      subs.Pairwise List.Disjoint := by
  refine ⟨{ st.getD nodeIdx default with
      isLeaf := true
      firstChildOrVoxelIndex := voxelsAll.indexOf (nodeVoxels.headD default)
      childCount := 0
      materialIdx := (nodeVoxels.headD default).materialIdx
      occupancyMask := (nodeVoxels.headD default).occupancyMask
      lodLevel := (nodeVoxels.headD default).lodLevel }, [], [nodeVoxels],
    ?_, ?_, ?_, ?_⟩
  · rw [makeLeaf, List.append_nil]
  · simp [leafRefs]
  · intro S hS
    rw [List.mem_singleton] at hS
    subst hS
    exact ⟨hn, fun a ha => ha⟩
  · exact List.pairwise_singleton _ _

theorem subdivideChildren_spec (voxelsAll : List Voxel) (lod : ℕ)
    (ih : NodeBuildSpec voxelsAll lod) :
    ∀ (parts : List (ℕ × List Voxel)) (st : List BLASNode)
      (parentAABB : AABB) (center : Vec3),
      (∀ p ∈ parts, p.2 ≠ []) →
      parts.Pairwise (fun p q => p.2.Disjoint q.2) →
      ∃ (tail : List BLASNode) (subs : List (List Voxel)),
        (subdivideChildren (subdivideNode voxelsAll lod) st parentAABB center
            lod parts).1 = st ++ tail ∧
        (subdivideChildren (subdivideNode voxelsAll lod) st parentAABB center
            lod parts).2.1.length = parts.length ∧
        leafRefs tail =
          subs.map (fun S => voxelsAll.indexOf (S.headD default)) ∧
        (∀ S ∈ subs, S ≠ [] ∧ ∃ p ∈ parts, S ⊆ p.2) ∧
        subs.Pairwise List.Disjoint := by
  intro parts
  induction parts with
  | nil =>
    intro st parentAABB center _ _
    exact ⟨[], [], by simp [subdivideChildren], by simp [subdivideChildren],
      by simp [leafRefs], by simp, List.Pairwise.nil⟩
  | cons hd rest irest =>
    intro st parentAABB center hne hdisj
    obtain ⟨i, part⟩ := hd
    have hpart : part ≠ [] := hne (i, part) (List.mem_cons_self _ _)
    set st1 := st ++ [initChildNode (calculateOctantAABB parentAABB i center) lod]
      with hst1
    have hidx : st.length < st1.length := by
      rw [hst1, List.length_append, List.length_singleton]
      omega
    obtain ⟨P, tailc, subsc, hres1, hrefs1, hsubs1, hpair1⟩ :=
      ih st1 st.length part hidx hpart
    have hset : st1.set st.length P = st ++ [P] := by
      rw [hst1, List.set_append, if_neg (by omega), Nat.sub_self]
      rfl
    obtain ⟨tailr, subsr, hres2, hlen2, hrefs2, hsubs2, hpair2⟩ :=
      irest (st ++ [P] ++ tailc) parentAABB center
        (fun p hp => hne p (List.mem_cons_of_mem _ hp))
        (List.Pairwise.sublist (List.sublist_cons_self _ _) hdisj)
    refine ⟨[P] ++ tailc ++ tailr, subsc ++ subsr, ?_, ?_, ?_, ?_, ?_⟩
    · show (subdivideChildren (subdivideNode voxelsAll lod) st parentAABB center
          lod ((i, part) :: rest)).1 = _
      rw [subdivideChildren]
      simp only
      rw [hres1, hset, hres2]
      simp [List.append_assoc]
    · show (subdivideChildren (subdivideNode voxelsAll lod) st parentAABB center
          lod ((i, part) :: rest)).2.1.length = _
      rw [subdivideChildren]
      simp only [List.length_cons]
      rw [hres1, hset]
      rw [hlen2]
    · rw [leafRefs_append, leafRefs_append, List.map_append, ← hrefs2]
      have : leafRefs [P] ++ leafRefs tailc = leafRefs (P :: tailc) := by
        rw [← leafRefs_append]
        rfl
      rw [this, hrefs1]
    · intro S hS
      rw [List.mem_append] at hS
      rcases hS with hS | hS
      · obtain ⟨h1, h2⟩ := hsubs1 S hS
        exact ⟨h1, ⟨(i, part), (List.mem_cons_self _ _), h2⟩⟩
      · obtain ⟨h1, p, hp, h2⟩ := hsubs2 S hS
        exact ⟨h1, p, List.mem_cons_of_mem _ hp, h2⟩
    · rw [List.pairwise_append]
      refine ⟨hpair1, hpair2, ?_⟩
      intro S hS T hT
      obtain ⟨-, hSsub⟩ := hsubs1 S hS
      obtain ⟨-, q, hq, hTsub⟩ := hsubs2 T hT
      have hdq : part.Disjoint q.2 := by
        have := List.pairwise_cons.mp hdisj
        exact this.1 q hq
      exact List.disjoint_of_subset_left hSsub
        (List.disjoint_of_subset_right hTsub hdq)

theorem subdivideNode_spec (voxelsAll : List Voxel) :
    ∀ lod, NodeBuildSpec voxelsAll lod := by
  intro lod
  induction lod with
  | zero =>
    intro st nodeIdx nodeVoxels hidx hne
    obtain ⟨P, tail, subs, h1, h2, h3, h4⟩ :=
      makeLeaf_case voxelsAll st nodeIdx nodeVoxels hne
    exact ⟨P, tail, subs, by rw [subdivideNode]; exact h1, h2, h3, h4⟩
  | succ lod ihl =>
    intro st nodeIdx nodeVoxels hidx hne
    by_cases hlen : nodeVoxels.length = 1
    · obtain ⟨P, tail, subs, h1, h2, h3, h4⟩ :=
        makeLeaf_case voxelsAll st nodeIdx nodeVoxels hne
      refine ⟨P, tail, subs, ?_, h2, h3, h4⟩
      rw [subdivideNode, if_pos hlen]
      exact h1
    · have hpne : ∀ p ∈ octantParts nodeVoxels
          ((st.getD nodeIdx default).aabb.getCenter), p.2 ≠ [] :=
        fun p hp => (octantParts_mem hp).2
      have hpd := octantParts_pairwise_disj nodeVoxels
        ((st.getD nodeIdx default).aabb.getCenter)
      obtain ⟨tail, subs, hres, hcnt, hrefs, hsubs, hpair⟩ :=
        subdivideChildren_spec voxelsAll lod ihl
          (octantParts nodeVoxels ((st.getD nodeIdx default).aabb.getCenter))
          st (st.getD nodeIdx default).aabb
          ((st.getD nodeIdx default).aabb.getCenter) hpne hpd
      have hparts : octantParts nodeVoxels
          ((st.getD nodeIdx default).aabb.getCenter) ≠ [] :=
        octantParts_ne_nil hne
      have hcnt0 : 0 < (subdivideChildren (subdivideNode voxelsAll lod) st
          (st.getD nodeIdx default).aabb
          ((st.getD nodeIdx default).aabb.getCenter) lod
          (octantParts nodeVoxels
            ((st.getD nodeIdx default).aabb.getCenter))).2.1.length := by
        rw [hcnt]
        exact List.length_pos.mpr hparts
      refine ⟨{ st.getD nodeIdx default with
          isLeaf := false
          firstChildOrVoxelIndex :=
            (subdivideChildren (subdivideNode voxelsAll lod) st
              (st.getD nodeIdx default).aabb
              ((st.getD nodeIdx default).aabb.getCenter) lod
              (octantParts nodeVoxels
                ((st.getD nodeIdx default).aabb.getCenter))).2.1.headD 0
          childCount :=
            (subdivideChildren (subdivideNode voxelsAll lod) st
              (st.getD nodeIdx default).aabb
              ((st.getD nodeIdx default).aabb.getCenter) lod
              (octantParts nodeVoxels
                ((st.getD nodeIdx default).aabb.getCenter))).2.1.length },
        tail, subs, ?_, ?_,
        fun S hS => ⟨(hsubs S hS).1, by
          obtain ⟨-, p, hp, h2⟩ := hsubs S hS
          exact h2.trans (octantParts_sub hp)⟩, hpair⟩
      · rw [subdivideNode, if_neg hlen]
        simp only [hcnt0, if_pos]
        rw [hres, List.set_append, if_pos hidx]
      · have : ({ st.getD nodeIdx default with
            isLeaf := false
            firstChildOrVoxelIndex :=
              (subdivideChildren (subdivideNode voxelsAll lod) st
                (st.getD nodeIdx default).aabb
                ((st.getD nodeIdx default).aabb.getCenter) lod
                (octantParts nodeVoxels
                  ((st.getD nodeIdx default).aabb.getCenter))).2.1.headD 0
            childCount :=
              (subdivideChildren (subdivideNode voxelsAll lod) st
                (st.getD nodeIdx default).aabb
                ((st.getD nodeIdx default).aabb.getCenter) lod
                (octantParts nodeVoxels
                  ((st.getD nodeIdx default).aabb.getCenter))).2.1.length }
              : BLASNode).isLeaf = false := rfl
        rw [leafRefs, List.filter_cons_of_neg (by rw [this]; exact Bool.false_ne_true), ← leafRefs]
        exact hrefs

theorem headD_mem_of_ne_nil {α : Type} [Inhabited α] {S : List α}
    (h : S ≠ []) : S.headD default ∈ S := by
  cases S with
  | nil => exact absurd rfl h
  | cons a t => exact List.mem_cons_self _ _

/-- Summary of the build invariant at the root call of `blasBuild`. -/
theorem blasBuild_subsets (voxels : List Voxel) (h : voxels ≠ []) :
    ∃ subs : List (List Voxel),
      leafRefs (blasBuild voxels).1 =
        subs.map (fun S => voxels.indexOf (S.headD default)) ∧
      (∀ S ∈ subs, S ≠ [] ∧ S ⊆ voxels) ∧
      subs.Pairwise List.Disjoint ∧
      1 ≤ (blasBuild voxels).1.length := by
  obtain ⟨P, tail, subs, h1, h2, h3, h4⟩ :=
    subdivideNode_spec voxels (maxLodLevel voxels)
      [{ aabb := rootAABBOf voxels, isLeaf := false,
         firstChildOrVoxelIndex := 0, childCount := 0, materialIdx := 0,
         occupancyMask := 0xFF, lodLevel := maxLodLevel voxels }] 0 voxels
      (by simp) h
  have hb : (blasBuild voxels).1 = P :: tail := by
    show (subdivideNode voxels (maxLodLevel voxels)
      [{ aabb := rootAABBOf voxels, isLeaf := false,
         firstChildOrVoxelIndex := 0, childCount := 0, materialIdx := 0,
         occupancyMask := 0xFF, lodLevel := maxLodLevel voxels }] 0 voxels).1 =
      P :: tail
    rw [h1]
    rfl
  exact ⟨subs, by rw [hb]; exact h2, h3, h4, by rw [hb]; simp⟩

theorem blasBuild_refs_nodup (voxels : List Voxel) (h : voxels ≠ []) :
    (leafRefs (blasBuild voxels).1).Nodup ∧
    ∀ r ∈ leafRefs (blasBuild voxels).1, r < voxels.length := by
  obtain ⟨subs, h1, h2, h3, -⟩ := blasBuild_subsets voxels h
  constructor
  · rw [h1, List.Nodup, List.pairwise_map]
    refine h3.imp_of_mem ?_
    intro S T hS hT hdisj hcon
    have hSne := (h2 S hS).1
    have hTne := (h2 T hT).1
    have hSh : S.headD default ∈ voxels := (h2 S hS).2 (headD_mem_of_ne_nil hSne)
    have hTh : T.headD default ∈ voxels := (h2 T hT).2 (headD_mem_of_ne_nil hTne)
    have heq : S.headD default = T.headD default :=
      (List.indexOf_inj hSh hTh).mp hcon
    exact hdisj (headD_mem_of_ne_nil hSne) (heq ▸ headD_mem_of_ne_nil hTne)
  · intro r hr
    rw [h1, List.mem_map] at hr
    obtain ⟨S, hS, rfl⟩ := hr
    exact List.indexOf_lt_length.mpr
      ((h2 S hS).2 (headD_mem_of_ne_nil (h2 S hS).1))

theorem getD_set_self (l : List BLASNode) (n : ℕ) (a : BLASNode)
    (d : BLASNode) (h : n < l.length) : (l.set n a).getD n d = a := by
  rw [List.getD_eq_getElem?_getD, List.getElem?_set_self h]
  rfl

/-! ## Concrete scenes used as counterexamples and witnesses -/

/-- Three unit voxels at LOD 2: two in the low octant of the root (which
subdivides further) and one in the high octant, so the root's second child
is allocated only after the first child's whole subtree. -/
def exVoxTri : List Voxel :=
  [⟨⟨⟨-4, 0⟩, ⟨-4, 0⟩, ⟨-4, 0⟩⟩, ⟨1, 0⟩, 0, 2, 0xFF⟩,
   ⟨⟨⟨-1, 0⟩, ⟨-4, 0⟩, ⟨-4, 0⟩⟩, ⟨1, 0⟩, 0, 2, 0xFF⟩,
   ⟨⟨⟨4, 0⟩, ⟨4, 0⟩, ⟨4, 0⟩⟩, ⟨1, 0⟩, 0, 2, 0xFF⟩]

/-- Two coincident unit voxels at LOD 5: every subdivision puts both into
one octant, producing a chain of single-child internal nodes of length 5. -/
def exVoxChain : List Voxel :=
  [⟨⟨⟨0, 0⟩, ⟨0, 0⟩, ⟨0, 0⟩⟩, ⟨1, 0⟩, 0, 5, 0xFF⟩,
   ⟨⟨⟨0, 0⟩, ⟨0, 0⟩, ⟨0, 0⟩⟩, ⟨1, 0⟩, 0, 5, 0xFF⟩]

/-- One unit voxel at the origin, LOD 0. -/
def exVoxOne : List Voxel := [⟨⟨⟨0, 0⟩, ⟨0, 0⟩, ⟨0, 0⟩⟩, ⟨1, 0⟩, 0, 0, 0xFF⟩]

/-- Two distinct voxels at LOD 0: the root call is already at the lowest
LOD with two voxels, the exact situation C9 describes. -/
def exVoxPair : List Voxel :=
  [⟨⟨⟨0, 0⟩, ⟨0, 0⟩, ⟨0, 0⟩⟩, ⟨1, 0⟩, 0, 0, 0xFF⟩,
   ⟨⟨⟨2, 0⟩, ⟨0, 0⟩, ⟨0, 0⟩⟩, ⟨1, 0⟩, 1, 0, 0xFF⟩]

/-- **C2 (code bug).** On `exVoxTri` the root node stores
`firstChildOrVoxelIndex = 1` and `childCount = 2`, yet the two child nodes
actually created for it sit at indices 1 and 4 — not at the contiguous
indices 1 and 2 the flat layout (and the traversal shader, which reads
children at `leftFirst` and `leftFirst + 1`) assumes.  Index 2 instead
holds a leaf of the first child's subtree. -/
theorem C2_children_not_contiguous :
    ((blasBuild exVoxTri).1.getD 0 default).firstChildOrVoxelIndex = 1 ∧
    ((blasBuild exVoxTri).1.getD 0 default).childCount = 2 ∧
    List.lookup 0 (blasBuild exVoxTri).2 = some [1, 4] ∧
    ((blasBuild exVoxTri).1.getD 2 default).isLeaf = true ∧
    (4 : ℕ) ≠ 1 + 1 := by
  refine ⟨by decide, by decide, by decide, by decide, by decide⟩

/-- **C4, counterexample.** `exVoxChain` has `V = 2` voxels but its BLAS
build allocates 6 nodes, exceeding the pre-allocated `2·V = 4`: the claim's
bound `nodeCount ≤ 2·V` is false on the code. -/
theorem C4_counterexample :
    (blasBuild exVoxChain).1.length = 6 ∧ exVoxChain.length = 2 ∧
    ¬ ((blasBuild exVoxChain).1.length ≤ 2 * exVoxChain.length) := by
  refine ⟨by decide, by decide, by decide⟩

/-- **C4 (amended).** For every BLAS built from a non-empty voxel list of
length `V`, `1 ≤ nodeCount`, and every leaf node's
`firstChildOrVoxelIndex` is a distinct value in `[0, V)`.  (The claim's
further bound `nodeCount ≤ 2·V` fails — see the counterexample — because
coincident voxels with a high LOD force a chain of single-child internal
nodes; the JS node array then grows past its preallocation.) -/
theorem C4_blas_invariants (voxels : List Voxel) (h : voxels ≠ []) :
    1 ≤ (blasBuild voxels).1.length ∧
    (leafRefs (blasBuild voxels).1).Nodup ∧
    ∀ r ∈ leafRefs (blasBuild voxels).1, r < voxels.length := by
  obtain ⟨-, -, -, -, h4⟩ := blasBuild_subsets voxels h
  obtain ⟨h5, h6⟩ := blasBuild_refs_nodup voxels h
  exact ⟨h4, h5, h6⟩

/-- Witness for C4 at the singleton scene `exVoxOne`. -/
theorem C4_blas_invariants_witness :
    exVoxOne ≠ [] ∧
    (1 ≤ (blasBuild exVoxOne).1.length ∧
      (leafRefs (blasBuild exVoxOne).1).Nodup ∧
      ∀ r ∈ leafRefs (blasBuild exVoxOne).1, r < exVoxOne.length) :=
  ⟨by decide, C4_blas_invariants exVoxOne (by decide)⟩

/-- **C9.** When subdivision reaches LOD 0 at a node whose subset still
holds two or more voxels, the node becomes a leaf referencing only the
subset's first voxel, located by `indexOf` in the BLAS's full voxel
array; and globally, every leaf references the `indexOf` position of its
subset's head, so the remaining voxels of such a subset (any member other
than the head, at any array position holding it) are referenced by no
node of the tree. -/
theorem C9_lod0_multi_voxel_leaf (voxels : List Voxel) (h : voxels ≠ []) :
    (∀ (st : List BLASNode) (nodeIdx : ℕ) (nodeVoxels : List Voxel),
      nodeIdx < st.length → 2 ≤ nodeVoxels.length →
      ((subdivideNode voxels 0 st nodeIdx nodeVoxels).1.getD nodeIdx
          default).isLeaf = true ∧
      ((subdivideNode voxels 0 st nodeIdx nodeVoxels).1.getD nodeIdx
          default).firstChildOrVoxelIndex =
        voxels.indexOf (nodeVoxels.headD default) ∧
      ((subdivideNode voxels 0 st nodeIdx nodeVoxels).1.getD nodeIdx
          default).childCount = 0) ∧
    ∃ subs : List (List Voxel),
      leafRefs (blasBuild voxels).1 =
        subs.map (fun S => voxels.indexOf (S.headD default)) ∧
      (∀ S ∈ subs, S ≠ [] ∧ S ⊆ voxels) ∧
      ∀ S ∈ subs, ∀ v ∈ S, v ≠ S.headD default →
        ∀ j < voxels.length, voxels.getD j default = v →
          j ∉ leafRefs (blasBuild voxels).1 := by
  constructor
  · intro st nodeIdx nodeVoxels hidx _
    rw [subdivideNode, makeLeaf]
    rw [getD_set_self _ _ _ _ hidx]
    exact ⟨rfl, rfl, rfl⟩
  · obtain ⟨subs, h1, h2, h3, -⟩ := blasBuild_subsets voxels h
    refine ⟨subs, h1, h2, ?_⟩
    intro S hS v hv hvne j hj hgetD hmem
    rw [h1, List.mem_map] at hmem
    obtain ⟨T, hT, hTeq⟩ := hmem
    have hTne := (h2 T hT).1
    have hTh : T.headD default ∈ voxels :=
      (h2 T hT).2 (headD_mem_of_ne_nil hTne)
    have hjv : voxels.getD j default = T.headD default := by
      rw [← hTeq, List.getD_eq_getElem _ _
        (List.indexOf_lt_length.mpr hTh)]
      exact List.getElem_indexOf _
    have hveq : v = T.headD default := by rw [← hgetD, hjv]
    by_cases hST : T = S
    · subst hST
      exact hvne hveq
    · have hdisj : List.Disjoint S T :=
        h3.forall (fun a b hab => List.disjoint_comm.mp hab) hS hT
          (fun hc => hST hc.symm)
      exact hdisj hv (hveq ▸ headD_mem_of_ne_nil hTne)

/-- Witness for C9 at the two-voxel LOD-0 scene `exVoxPair`. -/
theorem C9_lod0_multi_voxel_leaf_witness :
    exVoxPair ≠ [] ∧
    ((∀ (st : List BLASNode) (nodeIdx : ℕ) (nodeVoxels : List Voxel),
      nodeIdx < st.length → 2 ≤ nodeVoxels.length →
      ((subdivideNode exVoxPair 0 st nodeIdx nodeVoxels).1.getD nodeIdx
          default).isLeaf = true ∧
      ((subdivideNode exVoxPair 0 st nodeIdx nodeVoxels).1.getD nodeIdx
          default).firstChildOrVoxelIndex =
        exVoxPair.indexOf (nodeVoxels.headD default) ∧
      ((subdivideNode exVoxPair 0 st nodeIdx nodeVoxels).1.getD nodeIdx
          default).childCount = 0) ∧
    ∃ subs : List (List Voxel),
      leafRefs (blasBuild exVoxPair).1 =
        subs.map (fun S => exVoxPair.indexOf (S.headD default)) ∧
      (∀ S ∈ subs, S ≠ [] ∧ S ⊆ exVoxPair) ∧
      ∀ S ∈ subs, ∀ v ∈ S, v ≠ S.headD default →
        ∀ j < exVoxPair.length, exVoxPair.getD j default = v →
          j ∉ leafRefs (blasBuild exVoxPair).1) :=
  ⟨by decide, C9_lod0_multi_voxel_leaf exVoxPair (by decide)⟩

/-! ## VoxelScene bookkeeping (app.ts, class `VoxelScene`) -/

/-- A BLAS object as the scene stores it: its id and its voxel list (the
node array and `nodeCount` are the pure function `blasBuild` of the
voxels). -/
structure BLASObj where
  id : String
  voxels : List Voxel
deriving DecidableEq, Repr

instance : Inhabited BLASObj := ⟨⟨"", []⟩⟩

/-- The final JS `blas.nodes.length`: the array is pre-allocated to
`Math.max(1, voxels.length * 2)` (blas.ts line 53) and, JS arrays being
growable, writing slot `nodeCount - 1` beyond that bound extends the
length to `nodeCount`. -/
def blasNodesLen (voxels : List Voxel) : ℕ :=
  max (max 1 (2 * voxels.length)) (blasBuild voxels).1.length

/-- The `VoxelScene` fields the verified claims touch: the BLAS list, the
insertion-ordered `blasOffsetMap` (a JS `Map` iterates in insertion
order), and the running `totalNodeCount` offset accumulator. -/
structure VoxelScene where
  blasArray : List BLASObj
  blasOffsetMap : List (ℕ × BLASObj)
  totalNodeCount : ℕ
deriving DecidableEq, Repr

/-- The scene right after the constructor. -/
def emptyScene : VoxelScene := ⟨[], [], 0⟩

/-- app.ts `createBLAS` (lines 266–279): build the BLAS, append it, record
the current offset for it, and advance the offset by `nodes.length`. -/
def createBLAS (scene : VoxelScene) (id : String) (voxels : List Voxel) :
    VoxelScene :=
  { blasArray := scene.blasArray ++ [⟨id, voxels⟩],
    blasOffsetMap := scene.blasOffsetMap ++ [(scene.totalNodeCount, ⟨id, voxels⟩)],
    totalNodeCount := scene.totalNodeCount + blasNodesLen voxels }

/-- A scene built by a sequence of `createBLAS` calls. -/
def sceneOf (items : List (String × List Voxel)) : VoxelScene :=
  items.foldl (fun sc it => createBLAS sc it.1 it.2) emptyScene

/-- app.ts `getBlasOffset` (lines 284–292): scan the map entries in
insertion order for the first BLAS with the given id; on a miss, log an
error (not modelled — a console side effect) and return 0. -/
def getBlasOffset (scene : VoxelScene) (id : String) : ℕ :=
  match scene.blasOffsetMap.find? (fun e => e.2.id == id) with
  | some e => e.1
  | none => 0

/-- app.ts `getFlattenedBlasNodes` (lines 304–312): concatenate
`blas.getNodes()` — the slice `nodes[0, nodeCount)`, which is exactly the
built node list — over the BLAS array in creation order. -/
def getFlattenedBlasNodes (scene : VoxelScene) : List BLASNode :=
  scene.blasArray.flatMap (fun b => (blasBuild b.voxels).1)

/-- Specification helper: the offset-map block appended by a run of
`createBLAS` calls starting from accumulator value `t`. -/
def offsetsFrom (t : ℕ) : List (String × List Voxel) → List (ℕ × BLASObj)
  | [] => []
  | it :: rest => (t, ⟨it.1, it.2⟩) :: offsetsFrom (t + blasNodesLen it.2) rest

theorem sceneOf_go (items : List (String × List Voxel)) :
    ∀ (sc : VoxelScene),
      (items.foldl (fun s it => createBLAS s it.1 it.2) sc).blasOffsetMap =
        sc.blasOffsetMap ++ offsetsFrom sc.totalNodeCount items ∧
      (items.foldl (fun s it => createBLAS s it.1 it.2) sc).totalNodeCount =
        sc.totalNodeCount + (items.map (fun it => blasNodesLen it.2)).sum ∧
      (items.foldl (fun s it => createBLAS s it.1 it.2) sc).blasArray =
        sc.blasArray ++ items.map (fun it => (⟨it.1, it.2⟩ : BLASObj)) := by
  induction items with
  | nil => intro sc; simp [offsetsFrom]
  | cons it rest ih =>
    intro sc
    obtain ⟨h1, h2, h3⟩ := ih (createBLAS sc it.1 it.2)
    refine ⟨?_, ?_, ?_⟩
    · rw [List.foldl_cons, h1, offsetsFrom]
      rw [createBLAS]
      simp [List.append_assoc]
    · rw [List.foldl_cons, h2, createBLAS]
      simp only [List.map_cons, List.sum_cons]
      omega
    · rw [List.foldl_cons, h3, createBLAS]
      simp [List.append_assoc]

theorem offsetsFrom_getD (items : List (String × List Voxel)) :
    ∀ (t k : ℕ), k < items.length →
      ((offsetsFrom t items).getD k default).1 =
        t + ((items.take k).map (fun it => blasNodesLen it.2)).sum := by
  induction items with
  | nil => intro t k hk; simp at hk
  | cons it rest ih =>
    intro t k hk
    cases k with
    | zero => simp [offsetsFrom]
    | succ k =>
      rw [offsetsFrom]
      have := ih (t + blasNodesLen it.2) k (by simpa using hk)
      simp only [List.getD_cons_succ, this, List.take_succ_cons,
        List.map_cons, List.sum_cons]
      omega

/-- **C5, counterexample.** In a scene whose first BLAS is `exVoxChain`
(allocated capacity `max(1, 2·2) = 4` but 6 nodes built, growing the
array), the offset recorded for the second BLAS is 6, not the sum 4 of
the allocated capacities `max(1, 2·voxelCount)` the claim names. -/
theorem C5_counterexample :
    ((sceneOf [("a", exVoxChain), ("b", exVoxOne)]).blasOffsetMap.getD 1
        default).1 = 6 ∧
    max 1 (2 * exVoxChain.length) = 4 ∧ (6 : ℕ) ≠ 4 :=
  ⟨by decide, by decide, by decide⟩

/-- **C5 (amended).** The offset recorded for the `k`-th created BLAS is
the sum of the previous BLAS objects' final `nodes.length` values, where
`nodes.length = max(max(1, 2·voxelCount), nodeCount)` — the allocated
capacity `max(1, 2·voxelCount)` except when subdivision overflows it and
the array grows to `nodeCount`.  It is never the sum of the used
`nodeCount` values when those differ, since `nodeCount ≤ nodes.length`
with equality only in the overflow case. -/
theorem C5_offset_accounting (items : List (String × List Voxel)) (k : ℕ)
    (hk : k < items.length) :
    ((sceneOf items).blasOffsetMap.getD k default).1 =
      ((items.take k).map (fun it => blasNodesLen it.2)).sum ∧
    (∀ voxels : List Voxel,
      (blasBuild voxels).1.length ≤ 2 * voxels.length →
      blasNodesLen voxels = max 1 (2 * voxels.length)) ∧
    (∀ voxels : List Voxel, (blasBuild voxels).1.length ≤ blasNodesLen voxels) := by
  refine ⟨?_, ?_, fun voxels => le_max_right _ _⟩
  · have hgo := (sceneOf_go items emptyScene).1
    rw [sceneOf, hgo]
    simp only [emptyScene, List.nil_append]
    have := offsetsFrom_getD items 0 k hk
    omega
  · intro voxels hle
    rw [blasNodesLen, max_eq_left (hle.trans (le_max_right _ _))]

/-- Witness for C5: a two-BLAS scene with no overflow. -/
theorem C5_offset_accounting_witness :
    (1 < ([("a", exVoxOne), ("b", exVoxPair)] :
        List (String × List Voxel)).length) ∧
    (((sceneOf [("a", exVoxOne), ("b", exVoxPair)]).blasOffsetMap.getD 1
        default).1 =
      ((([("a", exVoxOne), ("b", exVoxPair)] :
          List (String × List Voxel)).take 1).map
        (fun it => blasNodesLen it.2)).sum ∧
    (∀ voxels : List Voxel,
      (blasBuild voxels).1.length ≤ 2 * voxels.length →
      blasNodesLen voxels = max 1 (2 * voxels.length)) ∧
    (∀ voxels : List Voxel, (blasBuild voxels).1.length ≤ blasNodesLen voxels)) :=
  ⟨by decide, C5_offset_accounting [("a", exVoxOne), ("b", exVoxPair)] 1 (by decide)⟩

theorem flatMap_getD_sum (f : (String × List Voxel) → List BLASNode)
    (items : List (String × List Voxel)) :
    ∀ (k : ℕ), k < items.length → (∀ it ∈ items, f it ≠ []) →
    (items.flatMap f).getD
        (((items.take k).map (fun it => (f it).length)).sum) default =
      (f (items.getD k default)).getD 0 default := by
  induction items with
  | nil => intro k hk; simp at hk
  | cons it rest ih =>
    intro k hk hne
    cases k with
    | zero =>
      simp only [List.take_zero, List.map_nil, List.sum_nil,
        List.flatMap_cons, List.getD_cons_zero]
      rw [List.getD_append _ _ _ 0]
      exact List.length_pos.mpr (hne it (List.mem_cons_self _ _))
    | succ k =>
      simp only [List.take_succ_cons, List.map_cons, List.sum_cons,
        List.flatMap_cons, List.getD_cons_succ]
      rw [List.getD_append_right _ _ _ _ (by omega), Nat.add_comm,
        Nat.add_sub_cancel]
      exact ih k (by simpa using hk)
        (fun p hp => hne p (List.mem_cons_of_mem _ hp))

theorem sum_lt_sum_of_lt_at (f g : (String × List Voxel) → ℕ)
    (l : List (String × List Voxel)) (hle : ∀ x ∈ l, f x ≤ g x) :
    ∀ (j : ℕ), j < l.length → f (l.getD j default) < g (l.getD j default) →
      (l.map f).sum < (l.map g).sum := by
  induction l with
  | nil => intro j hj; simp at hj
  | cons it rest ih =>
    intro j hj hlt
    cases j with
    | zero =>
      simp only [List.getD_cons_zero] at hlt
      simp only [List.map_cons, List.sum_cons]
      have : (rest.map f).sum ≤ (rest.map g).sum :=
        List.sum_le_sum (fun x hx => hle x (List.mem_cons_of_mem _ hx))
      omega
    | succ j =>
      simp only [List.getD_cons_succ] at hlt
      simp only [List.map_cons, List.sum_cons]
      have h1 : f it ≤ g it := hle it (List.mem_cons_self _ _)
      have h2 := ih (fun x hx => hle x (List.mem_cons_of_mem _ hx)) j
        (by simpa using hj) hlt
      omega

/-- **C6.** `getFlattenedBlasNodes` concatenates exactly the used node
slices `nodes[0, nodeCount)` of each BLAS in creation order, so the k-th
BLAS's root sits at the flattened index `Σ_{j<k} nodeCount_j`; that index
is at most the recorded `blasOffset` of the k-th BLAS, and strictly below
it whenever any earlier BLAS used fewer nodes than its `nodes.length`. -/
theorem C6_flattened_root_index (items : List (String × List Voxel)) (k : ℕ)
    (hk : k < items.length) (hne : ∀ it ∈ items, it.2 ≠ []) :
    getFlattenedBlasNodes (sceneOf items) =
      items.flatMap (fun it => (blasBuild it.2).1) ∧
    (getFlattenedBlasNodes (sceneOf items)).getD
        (((items.take k).map (fun it => (blasBuild it.2).1.length)).sum)
        default =
      (blasBuild ((items.getD k default).2)).1.getD 0 default ∧
    ((items.take k).map (fun it => (blasBuild it.2).1.length)).sum ≤
      ((sceneOf items).blasOffsetMap.getD k default).1 ∧
    (∀ j, j < k →
      (blasBuild ((items.getD j default).2)).1.length <
        blasNodesLen ((items.getD j default).2) →
      ((items.take k).map (fun it => (blasBuild it.2).1.length)).sum <
        ((sceneOf items).blasOffsetMap.getD k default).1) := by
  have harr : (sceneOf items).blasArray =
      items.map (fun it => (⟨it.1, it.2⟩ : BLASObj)) := by
    have := (sceneOf_go items emptyScene).2.2
    rw [sceneOf, this]
    simp [emptyScene]
  have hflat : getFlattenedBlasNodes (sceneOf items) =
      items.flatMap (fun it => (blasBuild it.2).1) := by
    rw [getFlattenedBlasNodes, harr, List.flatMap_map]
  have hoff : ((sceneOf items).blasOffsetMap.getD k default).1 =
      ((items.take k).map (fun it => blasNodesLen it.2)).sum := by
    have hgo := (sceneOf_go items emptyScene).1
    rw [sceneOf, hgo]
    simp only [emptyScene, List.nil_append]
    have := offsetsFrom_getD items 0 k hk
    omega
  have hbne : ∀ it ∈ items, (blasBuild it.2).1 ≠ [] := by
    intro it hit
    have h1 := (blasBuild_subsets it.2 (hne it hit)).choose_spec.2.2.2
    intro hc
    rw [hc] at h1
    simp at h1
  refine ⟨hflat, ?_, ?_, ?_⟩
  · rw [hflat]
    exact flatMap_getD_sum _ items k hk hbne
  · rw [hoff]
    apply List.sum_le_sum
    intro it _
    exact le_max_right _ _
  · intro j hj hlt
    rw [hoff]
    apply sum_lt_sum_of_lt_at _ _ _
      (fun x _ => le_max_right _ _) j
      (by rw [List.length_take]; omega)
    rw [List.getD_eq_getElem _ _ (by rw [List.length_take]; omega),
      List.getElem_take, ← List.getD_eq_getElem _ _ (by omega : j < items.length)]
    exact hlt

/-- Witness for C6: first BLAS uses 1 node of its 2 allocated slots, so
the second root's flattened index 1 is strictly below its offset 2. -/
theorem C6_flattened_root_index_witness :
    (1 < ([("a", exVoxOne), ("b", exVoxPair)] :
        List (String × List Voxel)).length ∧
      ∀ it ∈ ([("a", exVoxOne), ("b", exVoxPair)] :
        List (String × List Voxel)), it.2 ≠ []) ∧
    ((([("a", exVoxOne), ("b", exVoxPair)] :
          List (String × List Voxel)).take 1).map
        (fun it => (blasBuild it.2).1.length)).sum <
      ((sceneOf [("a", exVoxOne), ("b", exVoxPair)]).blasOffsetMap.getD 1
        default).1 := by
  refine ⟨⟨by decide, by decide⟩, ?_⟩
  exact (C6_flattened_root_index [("a", exVoxOne), ("b", exVoxPair)] 1
    (by decide) (by decide)).2.2.2 0 (by decide) (by decide)

theorem offsetsFrom_find_none (id : String) :
    ∀ (items : List (String × List Voxel)) (t : ℕ),
      (∀ it ∈ items, it.1 ≠ id) →
      (offsetsFrom t items).find? (fun e => e.2.id == id) = none := by
  intro items
  induction items with
  | nil => intro t _; rfl
  | cons it rest ih =>
    intro t h
    rw [offsetsFrom, List.find?_cons_of_neg]
    · exact ih _ (fun p hp => h p (List.mem_cons_of_mem _ hp))
    · simp only [beq_iff_eq]
      exact h it (List.mem_cons_self _ _)

theorem offsetsFrom_find_first (id : String) :
    ∀ (items : List (String × List Voxel)) (t k : ℕ),
      k < items.length → (items.getD k default).1 = id →
      (∀ j, j < k → (items.getD j default).1 ≠ id) →
      ∃ e, (offsetsFrom t items).find? (fun e => e.2.id == id) = some e ∧
        e.1 = t + ((items.take k).map (fun it => blasNodesLen it.2)).sum := by
  intro items
  induction items with
  | nil => intro t k hk; simp at hk
  | cons it rest ih =>
    intro t k hk hid hfirst
    cases k with
    | zero =>
      simp only [List.getD_cons_zero] at hid
      refine ⟨(t, ⟨it.1, it.2⟩), ?_, by simp⟩
      rw [offsetsFrom, List.find?_cons_of_pos]
      simp [hid]
    | succ k =>
      simp only [List.getD_cons_succ] at hid
      have hh : it.1 ≠ id := by
        have := hfirst 0 (by omega)
        simpa using this
      obtain ⟨e, he1, he2⟩ := ih (t + blasNodesLen it.2) k
        (by simpa using hk) hid
        (fun j hj => by
          have := hfirst (j + 1) (by omega)
          simpa using this)
      refine ⟨e, ?_, ?_⟩
      · rw [offsetsFrom, List.find?_cons_of_neg]
        · exact he1
        · simpa using hh
      · rw [he2, List.take_succ_cons, List.map_cons, List.sum_cons]
        omega

/-- **C8.** `getBlasOffset` on an id that no BLAS in the scene carries
returns 0 (after logging; the embedding is total, mirroring that the TS
code throws nothing); on an id registered by `createBLAS` it returns that
BLAS's recorded offset (the first registration, scanning the offset map
in insertion order). -/
theorem C8_getBlasOffset_lookup (items : List (String × List Voxel))
    (id : String) :
    ((∀ it ∈ items, it.1 ≠ id) → getBlasOffset (sceneOf items) id = 0) ∧
    (∀ k, k < items.length → (items.getD k default).1 = id →
      (∀ j, j < k → (items.getD j default).1 ≠ id) →
      getBlasOffset (sceneOf items) id =
        ((items.take k).map (fun it => blasNodesLen it.2)).sum) := by
  have hmap : (sceneOf items).blasOffsetMap = offsetsFrom 0 items := by
    have := (sceneOf_go items emptyScene).1
    rw [sceneOf, this]
    rfl
  constructor
  · intro h
    rw [getBlasOffset, hmap, offsetsFrom_find_none id items 0 h]
  · intro k hk hid hfirst
    obtain ⟨e, he1, he2⟩ := offsetsFrom_find_first id items 0 k hk hid hfirst
    rw [getBlasOffset, hmap, he1]
    simpa using he2

/-- Witness for C8: spec Scenario E (`getBlasOffset("missing") = 0`) and a
registered id. -/
theorem C8_getBlasOffset_lookup_witness :
    getBlasOffset (sceneOf [("a", exVoxOne), ("b", exVoxPair)]) "missing" = 0 ∧
    getBlasOffset (sceneOf [("a", exVoxOne), ("b", exVoxPair)]) "b" = 2 := by
  constructor
  · exact (C8_getBlasOffset_lookup [("a", exVoxOne), ("b", exVoxPair)]
      "missing").1 (by decide)
  · have := (C8_getBlasOffset_lookup [("a", exVoxOne), ("b", exVoxPair)]
      "b").2 1 (by decide) (by decide) (by decide)
    rw [this]
    decide

/-! ## TLAS (tlas.ts): SAH build over BLAS instances -/

/-- bvhStructures.ts `TLASNode`: `left = right = 0` marks a leaf; an
internal node's `blasInstanceIndex` is the `-1` sentinel. -/
structure TLASNode where
  aabb : AABB
  left : ℕ
  right : ℕ
  blasInstanceIndex : ℤ
deriving DecidableEq, Repr

instance : Inhabited TLASNode :=
  ⟨⟨⟨⟨0, 0⟩, ⟨0, 0⟩, ⟨0, 0⟩⟩, ⟨⟨0, 0⟩, ⟨0, 0⟩, ⟨0, 0⟩⟩⟩, 0, 0, 0⟩

/-- bvhStructures.ts `BLASInstance`: the 4×4 matrices are flat 16-entry
column-major arrays, as in the TS code. -/
structure BLASInstance where
  transform : List Dy
  transformInverse : List Dy
  blasOffset : ℕ
  materialIdx : ℕ
deriving DecidableEq, Repr

/-- The linear part of aabb.ts `applyMatrix` (lines 132–136) on one
corner. -/
def matApply (m : List Dy) (c : Vec3) : Vec3 :=
  ⟨Dy.add (Dy.add (Dy.add (Dy.mul (m.getD 0 0) c.x) (Dy.mul (m.getD 4 0) c.y))
      (Dy.mul (m.getD 8 0) c.z)) (m.getD 12 0),
   Dy.add (Dy.add (Dy.add (Dy.mul (m.getD 1 0) c.x) (Dy.mul (m.getD 5 0) c.y))
      (Dy.mul (m.getD 9 0) c.z)) (m.getD 13 0),
   Dy.add (Dy.add (Dy.add (Dy.mul (m.getD 2 0) c.x) (Dy.mul (m.getD 6 0) c.y))
      (Dy.mul (m.getD 10 0) c.z)) (m.getD 14 0)⟩

/-- aabb.ts `applyMatrix` (lines 112–141): transform the 8 corners, reset
the box to the empty sentinel and expand by each transformed corner; the
first expansion of the empty box by a point `p` yields exactly `(p, p)`,
which seeds the fold. -/
def applyMatrix (a : AABB) (m : List Dy) : AABB :=
  match [⟨a.min.x, a.min.y, a.min.z⟩, ⟨a.min.x, a.min.y, a.max.z⟩,
      ⟨a.min.x, a.max.y, a.min.z⟩, ⟨a.min.x, a.max.y, a.max.z⟩,
      ⟨a.max.x, a.min.y, a.min.z⟩, ⟨a.max.x, a.min.y, a.max.z⟩,
      ⟨a.max.x, a.max.y, a.min.z⟩,
      (⟨a.max.x, a.max.y, a.max.z⟩ : Vec3)].map (matApply m) with
  | [] => a
  | p :: rest => rest.foldl AABB.expandByPoint ⟨p, p⟩

/-- Expanding the empty sentinel box by a whole AABB `b`
(`expandByPoint(b.min)` then `expandByPoint(b.max)`) gives the
componentwise min/max of `b`'s two corners — `b` itself whenever `b` is
well-formed.  Seeds the union folds below. -/
def emptyExpand (b : AABB) : AABB :=
  ⟨vmin b.min b.max, vmax b.min b.max⟩

/-- A left-to-right union fold over boxes starting from the empty
sentinel, as in tlas.ts lines 158–163 and 121–123. -/
def unionBoxes : List AABB → AABB
  | [] => ⟨⟨0, 0, 0⟩, ⟨0, 0, 0⟩⟩
  | b :: rest => rest.foldl AABB.expandByAABB (emptyExpand b)

/-- `getCenter()[axis]` for `axis ∈ {0, 1, 2}` (the only values the axis
loop produces). -/
def axisGet : ℕ → Vec3 → Dy
  | 0, v => v.x
  | 1, v => v.y
  | _ + 2, v => v.z

/-- The center coordinate on `axis` of the node at index `i`, the sort key
of tlas.ts lines 147–151 and 106–110. -/
def centerAt (nodes : List TLASNode) (axis i : ℕ) : Dy :=
  axisGet axis ((nodes.getD i default).aabb.getCenter)

/-- The in-place `nodeIndices.sort(...)` by ascending center coordinate.
`Array.prototype.sort` is stable (ES2019) and a stable sort's output is
determined by the comparator alone, so it is embedded as the stable
insertion sort. -/
def sortByAxis (nodes : List TLASNode) (axis : ℕ) (l : List ℕ) : List ℕ :=
  List.insertionSort
    (fun i j => Dy.leb (centerAt nodes axis i) (centerAt nodes axis j) = true) l

/-- The SAH cost of splitting the sorted working list before position `i`
(tlas.ts lines 174–182): `leftSA·i + rightSA·(n−i)` with `leftSA` the
surface area of the union of the first `i` boxes (the forward prefix pass,
lines 157–163) and `rightSA` that of the last `n−i` boxes accumulated
back-to-front (lines 165–171). -/
def sahCost (nodes : List TLASNode) (sorted : List ℕ) (i : ℕ) : Dy :=
  let boxes := sorted.map (fun j => (nodes.getD j default).aabb)
  Dy.add
    (Dy.mul (AABB.surfaceArea (unionBoxes (boxes.take i))) (Dy.ofInt (i : ℤ)))
    (Dy.mul (AABB.surfaceArea (unionBoxes ((boxes.drop i).reverse)))
      (Dy.ofInt ((sorted.length - i : ℕ) : ℤ)))

/-- One `cost < bestCost` update of tlas.ts lines 184–188.  The running
best starts as `none` (`bestCost = Infinity`, `bestAxis = bestSplitIndex
= -1`); any finite candidate beats it. -/
def updateBest (best : Option (Dy × ℕ × ℕ)) (cand : Dy × ℕ × ℕ) :
    Option (Dy × ℕ × ℕ) :=
  match best with
  | none => some cand
  | some b => if Dy.ltb cand.1 b.1 then some cand else some b

/-- The split-position loop of tlas.ts lines 174–189 over one axis's
sorted order. -/
def axisPass (nodes : List TLASNode) (sorted : List ℕ) (axis : ℕ)
    (best : Option (Dy × ℕ × ℕ)) : Option (Dy × ℕ × ℕ) :=
  (List.range' 1 (sorted.length - 1)).foldl
    (fun b i => updateBest b (sahCost nodes sorted i, axis, i)) best

/-- tlas.ts `findBestSplit` (lines 139–193).  The working array is sorted
in place once per axis, so axis 1 sorts the axis-0 order and axis 2 the
axis-1 order; the final (axis-2) order is returned alongside the best
candidate, since the caller keeps using the mutated array. -/
def findBestSplit (nodes : List TLASNode) (l : List ℕ) :
    Option (Dy × ℕ × ℕ) × List ℕ :=
  let l0 := sortByAxis nodes 0 l
  let b0 := axisPass nodes l0 0 none
  let l1 := sortByAxis nodes 1 l0
  let b1 := axisPass nodes l1 1 b0
  let l2 := sortByAxis nodes 2 l1
  let b2 := axisPass nodes l2 2 b1
  (b2, l2)

/-- tlas.ts lines 93–114: slice the working list at the winning split
after re-sorting by the winning axis, or at the median index on the
`axis === -1` fallback. -/
def splitLists (st : List TLASNode) (l : List ℕ) : List ℕ × List ℕ :=
  let res := findBestSplit st l
  match res.1 with
  | none => (res.2.take (l.length / 2), res.2.drop (l.length / 2))
  | some (_, axis, i) =>
    let sorted := sortByAxis st axis res.2
    (sorted.take i, sorted.drop i)

/-- tlas.ts `buildHierarchy` (lines 86–134).  The TS recursion has no
explicit measure and terminates because both slices are strictly shorter
than the input; the embedding makes that measure a structural fuel
argument, and every theorem below supplies `fuel ≥ l.length`, under which
the fuel-exhausted branch is unreachable. -/
def buildHierarchyGo (fuel : ℕ) (st : List TLASNode) (l : List ℕ) :
    List TLASNode × ℕ :=
  match fuel with
  | 0 => (st, 0)
  | fuel + 1 =>
    if l.length = 1 then (st, l.headD 0)
    else
      let pair := splitLists st l
      let resL := buildHierarchyGo fuel st pair.1
      let resR := buildHierarchyGo fuel resL.1 pair.2
      let parentAABB := AABB.expandByAABB
        (emptyExpand ((resR.1.getD resL.2 default).aabb))
        ((resR.1.getD resR.2 default).aabb)
      (resR.1 ++ [⟨parentAABB, resL.2, resR.2, -1⟩], resR.1.length)

/-- tlas.ts lines 47–74: one leaf per instance whose BLAS offset resolves
in the map (a miss logs and `continue`s); the leaf's box is the BLAS root
AABB pushed through the instance transform.  The map value is the mapped
BLAS's root-node AABB, `blas.nodes[blas.rootNodeIdx].aabb` — the only
datum `buildTree` reads from it. -/
def buildLeaves (blasMap : List (ℕ × AABB)) :
    List BLASInstance → ℤ → List TLASNode → List ℕ →
      List TLASNode × List ℕ
  | [], _, nodes, leaves => (nodes, leaves)
  | inst :: rest, i, nodes, leaves =>
    match blasMap.lookup inst.blasOffset with
    | none => buildLeaves blasMap rest (i + 1) nodes leaves
    | some rootAABB =>
      buildLeaves blasMap rest (i + 1)
        (nodes ++ [⟨applyMatrix rootAABB inst.transform, 0, 0, i⟩])
        (leaves ++ [nodes.length])

/-- tlas.ts constructor + `buildTree` (lines 29–81): slot 0 is reserved
(`nodeCount` starts at 1), leaves are appended, the hierarchy is built
over them, and the root node is copied into slot 0. -/
def tlasBuild (instances : List BLASInstance) (blasMap : List (ℕ × AABB)) :
    List TLASNode :=
  let res := buildLeaves blasMap instances 0 [default] []
  let resH := buildHierarchyGo res.2.length res.1 res.2
  resH.1.set 0 (resH.1.getD resH.2 default)

/-! ## The SAH search as a minimum over split candidates -/

theorem Dy.leb_refl (a : Dy) : Dy.leb a a = true := Dy.leb_iff.mpr le_rfl

theorem Dy.leb_trans {a b c : Dy} (h1 : Dy.leb a b = true)
    (h2 : Dy.leb b c = true) : Dy.leb a c = true :=
  Dy.leb_iff.mpr ((Dy.leb_iff.mp h1).trans (Dy.leb_iff.mp h2))

theorem Dy.leb_of_ltb {a b : Dy} (h : Dy.ltb a b = true) : Dy.leb a b = true :=
  Dy.leb_iff.mpr (le_of_lt (Dy.ltb_iff.mp h))

theorem Dy.leb_of_not_ltb {a b : Dy} (h : ¬ Dy.ltb a b = true) :
    Dy.leb b a = true := by
  rw [Dy.ltb, Bool.not_eq_true, Bool.not_eq_false'] at h
  exact h

theorem foldl_updateBest_spec (cands : List (Dy × ℕ × ℕ)) :
    ∀ (best : Option (Dy × ℕ × ℕ)),
      (∀ cd ∈ cands, ∃ b, cands.foldl updateBest best = some b ∧
        Dy.leb b.1 cd.1 = true) ∧
      (∀ b0, best = some b0 → ∃ b, cands.foldl updateBest best = some b ∧
        Dy.leb b.1 b0.1 = true) ∧
      (cands.foldl updateBest best = best ∨
        ∃ cd ∈ cands, cands.foldl updateBest best = some cd) := by
  induction cands with
  | nil =>
    intro best
    refine ⟨fun cd hcd => absurd hcd (List.not_mem_nil cd), ?_, Or.inl rfl⟩
    intro b0 hb0
    exact ⟨b0, by rw [List.foldl_nil, hb0], Dy.leb_refl _⟩
  | cons cd rest ih =>
    intro best
    obtain ⟨ih1, ih2, ih3⟩ := ih (updateBest best cd)
    have hstep : ∃ s, updateBest best cd = some s ∧ Dy.leb s.1 cd.1 = true := by
      match best with
      | none => exact ⟨cd, rfl, Dy.leb_refl _⟩
      | some b =>
        by_cases hlt : Dy.ltb cd.1 b.1 = true
        · exact ⟨cd, by rw [updateBest, if_pos hlt], Dy.leb_refl _⟩
        · exact ⟨b, by rw [updateBest, if_neg hlt], Dy.leb_of_not_ltb hlt⟩
    obtain ⟨s, hs, hscd⟩ := hstep
    refine ⟨?_, ?_, ?_⟩
    · intro cd2 hcd2
      rw [List.mem_cons] at hcd2
      rcases hcd2 with hcd2 | hcd2
      · subst hcd2
        obtain ⟨b, hb1, hb2⟩ := ih2 s hs
        exact ⟨b, by rw [List.foldl_cons]; exact hb1, Dy.leb_trans hb2 hscd⟩
      · obtain ⟨b, hb1, hb2⟩ := ih1 cd2 hcd2
        exact ⟨b, by rw [List.foldl_cons]; exact hb1, hb2⟩
    · intro b0 hb0
      have hsb : ∃ s2, updateBest best cd = some s2 ∧
          Dy.leb s2.1 b0.1 = true := by
        subst hb0
        by_cases hlt : Dy.ltb cd.1 b0.1 = true
        · exact ⟨cd, by rw [updateBest, if_pos hlt], Dy.leb_of_ltb hlt⟩
        · exact ⟨b0, by rw [updateBest, if_neg hlt], Dy.leb_refl _⟩
      obtain ⟨s2, hs2, hs2b⟩ := hsb
      obtain ⟨b, hb1, hb2⟩ := ih2 s2 hs2
      exact ⟨b, by rw [List.foldl_cons]; exact hb1, Dy.leb_trans hb2 hs2b⟩
    · rcases ih3 with hkeep | ⟨cd2, hcd2, hres⟩
      · match hbest : best with
        | none =>
          right
          refine ⟨cd, List.mem_cons_self _ _, ?_⟩
          rw [List.foldl_cons, hkeep]
          rfl
        | some b =>
          by_cases hlt : Dy.ltb cd.1 b.1 = true
          · right
            refine ⟨cd, List.mem_cons_self _ _, ?_⟩
            rw [List.foldl_cons, hkeep]
            simp [updateBest, hlt]
          · left
            rw [List.foldl_cons, hkeep]
            simp [updateBest, hlt]
      · right
        exact ⟨cd2, List.mem_cons_of_mem _ hcd2,
          by rw [List.foldl_cons]; exact hres⟩

/-- The intermediate orders of the in-place working array inside
`findBestSplit`: the sort for each axis starts from the previous axis's
order. -/
def sortStateAt (nodes : List TLASNode) (l : List ℕ) : ℕ → List ℕ
  | 0 => sortByAxis nodes 0 l
  | 1 => sortByAxis nodes 1 (sortByAxis nodes 0 l)
  | _ + 2 => sortByAxis nodes 2 (sortByAxis nodes 1 (sortByAxis nodes 0 l))

theorem sortByAxis_perm (nodes : List TLASNode) (axis : ℕ) (l : List ℕ) :
    (sortByAxis nodes axis l).Perm l :=
  List.perm_insertionSort _ l

theorem sortByAxis_length (nodes : List TLASNode) (axis : ℕ) (l : List ℕ) :
    (sortByAxis nodes axis l).length = l.length :=
  List.length_insertionSort _ l

theorem sortStateAt_perm (nodes : List TLASNode) (l : List ℕ) :
    ∀ a, (sortStateAt nodes l a).Perm l := by
  intro a
  match a with
  | 0 => exact sortByAxis_perm nodes 0 l
  | 1 => exact (sortByAxis_perm nodes 1 _).trans (sortByAxis_perm nodes 0 l)
  | a + 2 =>
    exact ((sortByAxis_perm nodes 2 _).trans
      (sortByAxis_perm nodes 1 _)).trans (sortByAxis_perm nodes 0 l)

theorem sortStateAt_length (nodes : List TLASNode) (l : List ℕ) (a : ℕ) :
    (sortStateAt nodes l a).length = l.length :=
  (sortStateAt_perm nodes l a).length_eq

theorem findBestSplit_fst (nodes : List TLASNode) (l : List ℕ) :
    (findBestSplit nodes l).1 =
      axisPass nodes (sortStateAt nodes l 2) 2
        (axisPass nodes (sortStateAt nodes l 1) 1
          (axisPass nodes (sortStateAt nodes l 0) 0 none)) := rfl

theorem findBestSplit_snd (nodes : List TLASNode) (l : List ℕ) :
    (findBestSplit nodes l).2 = sortStateAt nodes l 2 := rfl

theorem axisPass_eq_foldl (nodes : List TLASNode) (sorted : List ℕ)
    (axis : ℕ) (best : Option (Dy × ℕ × ℕ)) :
    axisPass nodes sorted axis best =
      ((List.range' 1 (sorted.length - 1)).map
        (fun i => (sahCost nodes sorted i, axis, i))).foldl updateBest best := by
  rw [axisPass, List.foldl_map]

theorem mem_axisCands {nodes : List TLASNode} {sorted : List ℕ} {axis : ℕ}
    {cd : Dy × ℕ × ℕ} :
    cd ∈ (List.range' 1 (sorted.length - 1)).map
        (fun i => (sahCost nodes sorted i, axis, i)) ↔
      ∃ i, 1 ≤ i ∧ i < sorted.length ∧
        cd = (sahCost nodes sorted i, axis, i) := by
  rw [List.mem_map]
  constructor
  · rintro ⟨i, hi, rfl⟩
    rw [List.mem_range'] at hi
    obtain ⟨k, hk, rfl⟩ := hi
    exact ⟨1 + 1 * k, by omega, by omega, rfl⟩
  · rintro ⟨i, h1, h2, rfl⟩
    exact ⟨i, List.mem_range'.mpr ⟨i - 1, by omega, by omega⟩, rfl⟩

theorem findBestSplit_spec (nodes : List TLASNode) (l : List ℕ)
    (h2 : 2 ≤ l.length) :
    ∃ c axis i, (findBestSplit nodes l).1 = some (c, axis, i) ∧
      axis < 3 ∧ 1 ≤ i ∧ i < l.length ∧
      c = sahCost nodes (sortStateAt nodes l axis) i ∧
      ∀ a, a < 3 → ∀ j, 1 ≤ j → j < l.length →
        Dy.leb c (sahCost nodes (sortStateAt nodes l a) j) = true := by
  have hlen : ∀ a, (sortStateAt nodes l a).length = l.length :=
    sortStateAt_length nodes l
  have hcand : ∀ (a j : ℕ), 1 ≤ j → j < l.length →
      (sahCost nodes (sortStateAt nodes l a) j, a, j) ∈
        (List.range' 1 ((sortStateAt nodes l a).length - 1)).map
          (fun i => (sahCost nodes (sortStateAt nodes l a) i, a, i)) := by
    intro a j hj1 hj2
    exact mem_axisCands.mpr ⟨j, hj1, by rw [hlen]; omega, rfl⟩
  set b0 := axisPass nodes (sortStateAt nodes l 0) 0 none with hb0
  set b1 := axisPass nodes (sortStateAt nodes l 1) 1 b0 with hb1
  set b2 := axisPass nodes (sortStateAt nodes l 2) 2 b1 with hb2
  have spec0 := foldl_updateBest_spec
    ((List.range' 1 ((sortStateAt nodes l 0).length - 1)).map
      (fun i => (sahCost nodes (sortStateAt nodes l 0) i, 0, i))) none
  have spec1 := foldl_updateBest_spec
    ((List.range' 1 ((sortStateAt nodes l 1).length - 1)).map
      (fun i => (sahCost nodes (sortStateAt nodes l 1) i, 1, i))) b0
  have spec2 := foldl_updateBest_spec
    ((List.range' 1 ((sortStateAt nodes l 2).length - 1)).map
      (fun i => (sahCost nodes (sortStateAt nodes l 2) i, 2, i))) b1
  rw [← axisPass_eq_foldl, ← hb0] at spec0
  rw [← axisPass_eq_foldl, ← hb1] at spec1
  rw [← axisPass_eq_foldl, ← hb2] at spec2
  -- b2 is some, and its payload comes from one of the three passes
  have hsome : ∃ b, b2 = some b := by
    obtain ⟨b, hb, -⟩ := spec2.1 _ (hcand 2 1 le_rfl h2)
    exact ⟨b, hb⟩
  obtain ⟨b, hb⟩ := hsome
  have horigin : ∃ a i, a < 3 ∧ 1 ≤ i ∧ i < l.length ∧
      b = (sahCost nodes (sortStateAt nodes l a) i, a, i) := by
    rcases spec2.2.2 with h22 | ⟨cd, hcd, hcdeq⟩
    · rcases spec1.2.2 with h11 | ⟨cd, hcd, hcdeq⟩
      · rcases spec0.2.2 with h00 | ⟨cd, hcd, hcdeq⟩
        · rw [h22, h11, h00] at hb
          exact absurd hb (by simp)
        · obtain ⟨i, hi1, hi2, rfl⟩ := mem_axisCands.mp hcd
          rw [h22, h11, hcdeq, Option.some.injEq] at hb
          exact ⟨0, i, by omega, hi1, by rw [← hlen 0]; omega, hb.symm⟩
      · obtain ⟨i, hi1, hi2, rfl⟩ := mem_axisCands.mp hcd
        rw [h22, hcdeq, Option.some.injEq] at hb
        exact ⟨1, i, by omega, hi1, by rw [← hlen 1]; omega, hb.symm⟩
    · obtain ⟨i, hi1, hi2, rfl⟩ := mem_axisCands.mp hcd
      rw [hcdeq, Option.some.injEq] at hb
      exact ⟨2, i, by omega, hi1, by rw [← hlen 2]; omega, hb.symm⟩
  obtain ⟨a, i, ha, hi1, hi2, hbeq⟩ := horigin
  -- minimality of b over every pass's candidates
  have hmin : ∀ a2, a2 < 3 → ∀ j, 1 ≤ j → j < l.length →
      Dy.leb b.1 (sahCost nodes (sortStateAt nodes l a2) j) = true := by
    intro a2 ha2 j hj1 hj2
    have hle21 : ∀ x, b1 = some x → ∃ y, b2 = some y ∧
        Dy.leb y.1 x.1 = true := spec2.2.1
    interval_cases a2
    · obtain ⟨x, hx, hxle⟩ := spec0.1 _ (hcand 0 j hj1 hj2)
      obtain ⟨y, hy, hyle⟩ := spec1.2.1 x hx
      obtain ⟨z, hz, hzle⟩ := hle21 y hy
      rw [hb, Option.some.injEq] at hz
      subst hz
      exact Dy.leb_trans (Dy.leb_trans hzle hyle) hxle
    · obtain ⟨x, hx, hxle⟩ := spec1.1 _ (hcand 1 j hj1 hj2)
      obtain ⟨z, hz, hzle⟩ := hle21 x hx
      rw [hb, Option.some.injEq] at hz
      subst hz
      exact Dy.leb_trans hzle hxle
    · obtain ⟨z, hz, hzle⟩ := spec2.1 _ (hcand 2 j hj1 hj2)
      rw [hb, Option.some.injEq] at hz
      subst hz
      exact hzle
  refine ⟨b.1, a, i, ?_, ha, hi1, hi2, ?_, ?_⟩
  · rw [findBestSplit_fst, ← hb0, ← hb1, ← hb2, hb, hbeq]
  · rw [hbeq]
  · rw [hbeq] at hmin ⊢
    exact hmin

theorem splitLists_eq_of_some {st : List TLASNode} {l : List ℕ}
    {c : Dy} {axis i : ℕ} (h : (findBestSplit st l).1 = some (c, axis, i)) :
    splitLists st l =
      ((sortByAxis st axis (findBestSplit st l).2).take i,
       (sortByAxis st axis (findBestSplit st l).2).drop i) := by
  simp only [splitLists, h]

theorem splitLists_spec (st : List TLASNode) (l : List ℕ)
    (h2 : 2 ≤ l.length) :
    (splitLists st l).1 ≠ [] ∧ (splitLists st l).2 ≠ [] ∧
    (splitLists st l).1.length + (splitLists st l).2.length = l.length ∧
    (splitLists st l).1.length < l.length ∧
    (splitLists st l).2.length < l.length ∧
    (∀ x ∈ (splitLists st l).1, x ∈ l) ∧
    (∀ x ∈ (splitLists st l).2, x ∈ l) := by
  obtain ⟨c, axis, i, hsome, -, hi1, hi2, -, -⟩ := findBestSplit_spec st l h2
  have hperm : (sortByAxis st axis (findBestSplit st l).2).Perm l :=
    (sortByAxis_perm st axis _).trans (sortStateAt_perm st l 2)
  have hlen : (sortByAxis st axis (findBestSplit st l).2).length = l.length :=
    hperm.length_eq
  rw [splitLists_eq_of_some hsome]
  refine ⟨?_, ?_, ?_, ?_, ?_, ?_, ?_⟩
  · rw [← List.length_pos, List.length_take]
    omega
  · rw [← List.length_pos, List.length_drop]
    omega
  · rw [List.length_take, List.length_drop]
    omega
  · rw [List.length_take]
    omega
  · rw [List.length_drop]
    omega
  · intro x hx
    exact hperm.mem_iff.mp (List.take_subset _ _ hx)
  · intro x hx
    exact hperm.mem_iff.mp (List.drop_subset _ _ hx)

/-- **C3.** For a working list of two or more node indices,
`findBestSplit` returns an axis in `{0,1,2}` and a split position
`i ∈ [1,n)` whose SAH cost `leftSA(i)·i + rightSA(i)·(n−i)` — computed
over the center-sorted order the in-place array holds when that axis is
scanned — is minimal among all axes and split positions; the working
orders really are center-sorted permutations of the input;
`buildHierarchy`'s partition (`splitLists`) is the prefix of length
exactly `i` of the list re-sorted by the winning axis; and on the
`axis = -1` fallback (never reached for `n ≥ 2`) it is the median split
of the array as findBestSplit left it. -/
theorem C3_sah_split (nodes : List TLASNode) (l : List ℕ)
    (h2 : 2 ≤ l.length) :
    (∃ c axis i,
      (findBestSplit nodes l).1 = some (c, axis, i) ∧
      axis < 3 ∧ 1 ≤ i ∧ i < l.length ∧
      c = sahCost nodes (sortStateAt nodes l axis) i ∧
      (∀ a, a < 3 → ∀ j, 1 ≤ j → j < l.length →
        Dy.leb c (sahCost nodes (sortStateAt nodes l a) j) = true) ∧
      (∀ a, a < 3 → (sortStateAt nodes l a).Perm l ∧
        List.Sorted
          (fun i2 j2 =>
            Dy.leb (centerAt nodes a i2) (centerAt nodes a j2) = true)
          (sortStateAt nodes l a)) ∧
      (splitLists nodes l).1 ++ (splitLists nodes l).2 =
        sortByAxis nodes axis (findBestSplit nodes l).2 ∧
      (splitLists nodes l).1.length = i) ∧
    ∀ (st2 : List TLASNode) (l2 : List ℕ),
      (findBestSplit st2 l2).1 = none →
      splitLists st2 l2 =
        ((findBestSplit st2 l2).2.take (l2.length / 2),
         (findBestSplit st2 l2).2.drop (l2.length / 2)) := by
  constructor
  · obtain ⟨c, axis, i, hsome, ha, hi1, hi2, hc, hmin⟩ :=
      findBestSplit_spec nodes l h2
    have hsorted : ∀ a, a < 3 → (sortStateAt nodes l a).Perm l ∧
        List.Sorted
          (fun i2 j2 =>
            Dy.leb (centerAt nodes a i2) (centerAt nodes a j2) = true)
          (sortStateAt nodes l a) := by
      intro a ha3
      refine ⟨sortStateAt_perm nodes l a, ?_⟩
      have htot : ∀ (x y : ℕ),
          (Dy.leb (centerAt nodes a x) (centerAt nodes a y) = true) ∨
          (Dy.leb (centerAt nodes a y) (centerAt nodes a x) = true) := by
        intro x y
        rcases le_total ((centerAt nodes a x).toQ) ((centerAt nodes a y).toQ)
          with h | h
        · exact Or.inl (Dy.leb_iff.mpr h)
        · exact Or.inr (Dy.leb_iff.mpr h)
      haveI htotI : IsTotal ℕ
          (fun i2 j2 =>
            Dy.leb (centerAt nodes a i2) (centerAt nodes a j2) = true) :=
        ⟨htot⟩
      haveI htrI : IsTrans ℕ
          (fun i2 j2 =>
            Dy.leb (centerAt nodes a i2) (centerAt nodes a j2) = true) :=
        ⟨fun _ _ _ hxy hyz => Dy.leb_trans hxy hyz⟩
      interval_cases a
      · exact List.sorted_insertionSort _ _
      · exact List.sorted_insertionSort _ _
      · exact List.sorted_insertionSort _ _
    have hperm : (sortByAxis nodes axis (findBestSplit nodes l).2).Perm l :=
      (sortByAxis_perm nodes axis _).trans (sortStateAt_perm nodes l 2)
    refine ⟨c, axis, i, hsome, ha, hi1, hi2, hc, hmin, hsorted, ?_, ?_⟩
    · rw [splitLists_eq_of_some hsome]
      exact List.take_append_drop i _
    · rw [splitLists_eq_of_some hsome]
      simp only [List.length_take]
      rw [hperm.length_eq]
      omega
  · intro st2 l2 hnone
    simp only [splitLists, hnone]

theorem buildHierarchyGo_spec :
    ∀ (fuel : ℕ) (l : List ℕ) (st : List TLASNode),
      l ≠ [] → l.length ≤ fuel → (∀ i ∈ l, 1 ≤ i ∧ i < st.length) →
      ∃ tail : List TLASNode,
        (buildHierarchyGo fuel st l).1 = st ++ tail ∧
        tail.length = l.length - 1 ∧
        (∀ nd ∈ tail, nd.left ≠ 0) ∧
        1 ≤ (buildHierarchyGo fuel st l).2 ∧
        (buildHierarchyGo fuel st l).2 < st.length + tail.length ∧
        (l.length = 1 → (buildHierarchyGo fuel st l).2 = l.headD 0) ∧
        (2 ≤ l.length →
          ((buildHierarchyGo fuel st l).1.getD (buildHierarchyGo fuel st l).2
            default).left ≠ 0) := by
  intro fuel
  induction fuel with
  | zero =>
    intro l st hne hlen
    rw [Nat.le_zero, List.length_eq_zero] at hlen
    exact absurd hlen hne
  | succ fuel ih =>
    intro l st hne hlen hbounds
    by_cases h1 : l.length = 1
    · have hgo : buildHierarchyGo (fuel + 1) st l = (st, l.headD 0) := by
        rw [buildHierarchyGo, if_pos h1]
      have hhead : l.headD 0 ∈ l := by
        cases l with
        | nil => exact absurd rfl hne
        | cons a t => exact List.mem_cons_self _ _
      obtain ⟨hb1, hb2⟩ := hbounds _ hhead
      refine ⟨[], by rw [hgo, List.append_nil], by simp [h1], by simp,
        by rw [hgo]; exact hb1, by rw [hgo]; simpa using hb2,
        fun _ => by rw [hgo], fun hc => absurd hc (by omega)⟩
    · have h2 : 2 ≤ l.length := by
        have := List.length_pos.mpr hne
        omega
      obtain ⟨hLne, hRne, hsum, hLlt, hRlt, hLmem, hRmem⟩ :=
        splitLists_spec st l h2
      obtain ⟨tailL, hL1, hL2, hL3, hL4, hL5, -, -⟩ :=
        ih (splitLists st l).1 st hLne (by omega)
          (fun i hi => hbounds i (hLmem i hi))
      obtain ⟨tailR, hR1, hR2, hR3, hR4, hR5, -, -⟩ :=
        ih (splitLists st l).2 (buildHierarchyGo fuel st (splitLists st l).1).1
          hRne (by omega)
          (fun i hi => by
            obtain ⟨hb1, hb2⟩ := hbounds i (hRmem i hi)
            rw [hL1, List.length_append]
            exact ⟨hb1, by omega⟩)
      have hstep : ∃ P : TLASNode,
          (buildHierarchyGo (fuel + 1) st l).1 =
            (buildHierarchyGo fuel (buildHierarchyGo fuel st
              (splitLists st l).1).1 (splitLists st l).2).1 ++ [P] ∧
          P.left = (buildHierarchyGo fuel st (splitLists st l).1).2 ∧
          (buildHierarchyGo (fuel + 1) st l).2 =
            (buildHierarchyGo fuel (buildHierarchyGo fuel st
              (splitLists st l).1).1 (splitLists st l).2).1.length := by
        rw [buildHierarchyGo, if_neg h1]
        exact ⟨_, rfl, rfl, rfl⟩
      obtain ⟨P, hP1, hP2, hP3⟩ := hstep
      refine ⟨tailL ++ tailR ++ [P], ?_, ?_, ?_, ?_, ?_,
        fun hc => absurd h1 (by omega), ?_⟩
      · rw [hP1, hR1, hL1]
        simp [List.append_assoc]
      · simp only [List.length_append, List.length_singleton]
        omega
      · intro nd hnd
        simp only [List.append_assoc, List.mem_append,
          List.mem_singleton] at hnd
        rcases hnd with hnd | hnd | hnd
        · exact hL3 nd hnd
        · exact hR3 nd hnd
        · rw [hnd, hP2]
          omega
      · rw [hP3, hR1, hL1]
        simp only [List.length_append]
        omega
      · rw [hP3, hR1, hL1]
        simp only [List.length_append, List.length_singleton]
        omega
      · intro _
        rw [hP1, hP3, List.getD_eq_getElem?_getD,
          List.getElem?_append_right le_rfl, Nat.sub_self]
        simp only [List.getElem?_cons_zero, Option.getD_some]
        rw [hP2]
        omega

theorem buildLeaves_spec (blasMap : List (ℕ × AABB)) :
    ∀ (instances : List BLASInstance) (i : ℤ) (nodes : List TLASNode)
      (leaves : List ℕ),
      (∀ inst ∈ instances, (blasMap.lookup inst.blasOffset).isSome = true) →
      ∃ newNodes : List TLASNode,
        buildLeaves blasMap instances i nodes leaves =
          (nodes ++ newNodes, leaves ++ List.range' nodes.length newNodes.length) ∧
        newNodes.length = instances.length ∧
        newNodes.map (fun nd => (nd.left, nd.right, nd.blasInstanceIndex)) =
          (List.range instances.length).map
            (fun k : ℕ => ((0 : ℕ), (0 : ℕ), i + (k : ℤ))) := by
  intro instances
  induction instances with
  | nil =>
    intro i nodes leaves _
    exact ⟨[], by simp [buildLeaves], rfl, rfl⟩
  | cons inst rest ih =>
    intro i nodes leaves hsome
    obtain ⟨a, ha⟩ := Option.isSome_iff_exists.mp
      (hsome inst (List.mem_cons_self _ _))
    obtain ⟨newNodes2, h1, h2, h3⟩ := ih (i + 1)
      (nodes ++ [⟨applyMatrix a inst.transform, 0, 0, i⟩])
      (leaves ++ [nodes.length])
      (fun p hp => hsome p (List.mem_cons_of_mem _ hp))
    refine ⟨⟨applyMatrix a inst.transform, 0, 0, i⟩ :: newNodes2, ?_, ?_, ?_⟩
    · have hgo : buildLeaves blasMap (inst :: rest) i nodes leaves =
          buildLeaves blasMap rest (i + 1)
            (nodes ++ [⟨applyMatrix a inst.transform, 0, 0, i⟩])
            (leaves ++ [nodes.length]) := by
        rw [buildLeaves, ha]
      rw [hgo, h1]
      congr 1
      · simp [List.append_assoc]
      · rw [List.length_cons, List.range'_succ, List.length_append]
        simp [List.append_assoc]
    · simpa using h2
    · simp only [List.map_cons, List.length_cons, List.range_succ_eq_map,
        List.map_map]
      congr 1
      · norm_num
      · rw [h3]
        apply List.map_congr_left
        intro k _
        simp only [Function.comp_apply]
        congr 1
        push_cast
        ring

/-- The leaf test on TLAS nodes (`left == 0 && right == 0`), as the
traversal shader reads it (bvhTraverse.wgsl line 101). -/
def tlasIsLeaf (nd : TLASNode) : Bool := nd.left == 0 && nd.right == 0

/-- **C1 (amended).** A TLAS built over `n > 0` instances (all of whose
offsets resolve) holds `nodeCount = 2·n` nodes — slot 0 is reserved at
construction and the root is duplicated into it, so the count is `2n`,
not `2n − 1`.  For `n ≥ 2` the nodes comprise exactly `n` leaves
(`left = right = 0`) whose `blasInstanceIndex` values are `0, …, n−1`
each exactly once; for `n = 1` the two nodes are both leaf-shaped copies
referencing instance 0. -/
theorem C1_tlas_structure (instances : List BLASInstance)
    (blasMap : List (ℕ × AABB)) (h1 : instances ≠ [])
    (h2 : ∀ inst ∈ instances, (blasMap.lookup inst.blasOffset).isSome = true) :
    (tlasBuild instances blasMap).length = 2 * instances.length ∧
    ((tlasBuild instances blasMap).filter tlasIsLeaf).map
        (fun nd => nd.blasInstanceIndex) =
      (if instances.length = 1 then [0, 0]
       else (List.range instances.length).map (fun k : ℕ => (k : ℤ))) := by
  obtain ⟨newNodes, hres, hlen, htriples⟩ :=
    buildLeaves_spec blasMap instances 0 [default] [] h2
  simp only [zero_add] at htriples
  have hn1 : 1 ≤ instances.length := by
    have := List.length_pos.mpr h1
    omega
  have hleafprops : ∀ nd ∈ newNodes, nd.left = 0 ∧ nd.right = 0 := by
    intro nd hnd
    have hmem : (nd.left, nd.right, nd.blasInstanceIndex) ∈
        newNodes.map (fun nd => (nd.left, nd.right, nd.blasInstanceIndex)) :=
      List.mem_map_of_mem _ hnd
    rw [htriples, List.mem_map] at hmem
    obtain ⟨k, -, hk⟩ := hmem
    rw [Prod.mk.injEq, Prod.mk.injEq] at hk
    exact ⟨hk.1.symm, hk.2.1.symm⟩
  have hinstmap : newNodes.map (fun nd => nd.blasInstanceIndex) =
      (List.range instances.length).map (fun k : ℕ => (k : ℤ)) := by
    have : newNodes.map (fun nd => nd.blasInstanceIndex) =
        (newNodes.map (fun nd => (nd.left, nd.right, nd.blasInstanceIndex))).map
          (fun t => t.2.2) := by
      rw [List.map_map]
      rfl
    rw [this, htriples, List.map_map]
    rfl
  have hrlen : (List.range' 1 instances.length).length = instances.length := by
    simp
  have hgohyp1 : (List.range' 1 instances.length) ≠ [] := by
    intro hc
    rw [hc] at hrlen
    simp at hrlen
    omega
  have hgohyp2 : (List.range' 1 instances.length).length ≤
      (List.range' 1 instances.length).length := le_rfl
  have hgohyp3 : ∀ i ∈ List.range' 1 instances.length,
      1 ≤ i ∧ i < (default :: newNodes : List TLASNode).length := by
    intro i hi
    rw [List.mem_range'] at hi
    obtain ⟨k, hk, rfl⟩ := hi
    rw [List.length_cons, hlen]
    omega
  obtain ⟨tail, hg1, hg2, hg3, hg4, hg5, hg6, hg7⟩ :=
    buildHierarchyGo_spec (List.range' 1 instances.length).length
      (List.range' 1 instances.length) (default :: newNodes)
      hgohyp1 hgohyp2 hgohyp3
  have htb : tlasBuild instances blasMap =
      ((buildHierarchyGo (List.range' 1 instances.length).length
          (default :: newNodes) (List.range' 1 instances.length)).1).set 0
        ((buildHierarchyGo (List.range' 1 instances.length).length
            (default :: newNodes) (List.range' 1 instances.length)).1.getD
          (buildHierarchyGo (List.range' 1 instances.length).length
            (default :: newNodes) (List.range' 1 instances.length)).2
          default) := by
    rw [tlasBuild]
    simp only [hres, List.singleton_append, List.nil_append, List.length_cons,
      List.length_nil, Nat.zero_add, hlen, hrlen]
  rw [htb]
  simp only [hg1]
  have hset : ((default :: newNodes ++ tail).set 0
      ((default :: newNodes ++ tail).getD
        (buildHierarchyGo (List.range' 1 instances.length).length
          (default :: newNodes) (List.range' 1 instances.length)).2
        default)) =
      ((default :: newNodes ++ tail).getD
        (buildHierarchyGo (List.range' 1 instances.length).length
          (default :: newNodes) (List.range' 1 instances.length)).2
        default) :: (newNodes ++ tail) := by
    rfl
  simp only [hg1] at hg7
  rw [hset]
  constructor
  · rw [List.length_cons, List.length_append, hlen, hg2, hrlen]
    omega
  · by_cases hone : instances.length = 1
    · obtain ⟨nd, hnd⟩ := List.length_eq_one.mp (hlen.trans hone)
      have htail : tail = [] := List.length_eq_zero.mp (by omega)
      have hroot : (buildHierarchyGo (List.range' 1 instances.length).length
          (default :: newNodes) (List.range' 1 instances.length)).2 = 1 := by
        rw [hg6 (by rw [hrlen, hone]), hone]
        decide
      rw [hroot, hnd, htail]
      have hnd0 : nd.left = 0 ∧ nd.right = 0 := by
        apply hleafprops
        rw [hnd]
        exact List.mem_cons_self _ _
      have hndidx : nd.blasInstanceIndex = 0 := by
        have := hinstmap
        rw [hnd, hone] at this
        simpa [List.range_succ] using this
      simp only [List.append_nil, List.getD_cons_succ, List.getD_cons_zero,
        if_pos hone]
      rw [List.filter_cons_of_pos, List.filter_cons_of_pos,
        List.filter_nil]
      · simp [hndidx]
      · simp [tlasIsLeaf, hnd0.1, hnd0.2]
      · simp [tlasIsLeaf, hnd0.1, hnd0.2]
    · have h2n : 2 ≤ instances.length := by omega
      have hrootint : ((default :: newNodes ++ tail).getD
          (buildHierarchyGo (List.range' 1 instances.length).length
            (default :: newNodes) (List.range' 1 instances.length)).2
          default).left ≠ 0 := hg7 (by rw [hrlen]; omega)
      rw [List.filter_cons_of_neg, if_neg hone]
      · rw [List.filter_append]
        rw [List.filter_eq_self.mpr, List.filter_eq_nil_iff.mpr]
        · rw [List.append_nil]
          exact hinstmap
        · intro nd hnd
          have := hg3 nd hnd
          simp [tlasIsLeaf, this]
        · intro nd hnd
          obtain ⟨ha, hb⟩ := hleafprops nd hnd
          simp [tlasIsLeaf, ha, hb]
      · simp only [tlasIsLeaf, Bool.and_eq_true, beq_iff_eq]
        intro hc
        exact hrootint hc.1

/-- A translation-by-`t`-along-x matrix, column-major as mat4.ts stores
them. -/
def matTranslate (t : ℤ) : List Dy :=
  [1, 0, 0, 0, 0, 1, 0, 0, 0, 0, 1, 0, Dy.ofInt t, 0, 0, 1]

/-- A unit-radius box around the origin, standing for a BLAS root AABB. -/
def exBox : AABB :=
  ⟨⟨Dy.ofInt (-1), Dy.ofInt (-1), Dy.ofInt (-1)⟩, ⟨1, 1, 1⟩⟩

/-- Spec Scenario B: two instances of one BLAS at `x = -5` and `x = +5`. -/
def exInstances : List BLASInstance :=
  [⟨matTranslate (-5), matTranslate 5, 0, 0⟩,
   ⟨matTranslate 5, matTranslate (-5), 0, 0⟩]

/-- The offset map resolving both instances to the shared BLAS root box. -/
def exBlasMap : List (ℕ × AABB) := [(0, exBox)]

set_option maxRecDepth 8000 in
/-- **C1, counterexample.** The Scenario-B TLAS over 2 instances holds 4
nodes (reserved slot 0 gets a copy of the root), not the claimed
`2·2 − 1 = 3`. -/
theorem C1_counterexample :
    (tlasBuild exInstances exBlasMap).length = 4 ∧
    exInstances.length = 2 ∧ (4 : ℕ) ≠ 2 * 2 - 1 := by
  refine ⟨by decide, by decide, by decide⟩

/-- Witness for C1 at the Scenario-B scene. -/
theorem C1_tlas_structure_witness :
    (exInstances ≠ [] ∧
      ∀ inst ∈ exInstances, (exBlasMap.lookup inst.blasOffset).isSome = true) ∧
    ((tlasBuild exInstances exBlasMap).length = 2 * exInstances.length ∧
      ((tlasBuild exInstances exBlasMap).filter tlasIsLeaf).map
          (fun nd => nd.blasInstanceIndex) =
        (if exInstances.length = 1 then [0, 0]
         else (List.range exInstances.length).map (fun k : ℕ => (k : ℤ)))) :=
  ⟨⟨by decide, by decide⟩,
    C1_tlas_structure exInstances exBlasMap (by decide) (by decide)⟩

/-- Two concrete leaf nodes (slot 0 reserved) for exercising the split
search. -/
def exTlasNodes : List TLASNode :=
  [default,
   ⟨⟨⟨Dy.ofInt (-6), Dy.ofInt (-1), Dy.ofInt (-1)⟩,
     ⟨Dy.ofInt (-4), 1, 1⟩⟩, 0, 0, 0⟩,
   ⟨⟨⟨Dy.ofInt 4, Dy.ofInt (-1), Dy.ofInt (-1)⟩,
     ⟨Dy.ofInt 6, 1, 1⟩⟩, 0, 0, 1⟩]

/-- Witness for C3 on the two-leaf working list `[1, 2]`. -/
theorem C3_sah_split_witness :
    2 ≤ ([1, 2] : List ℕ).length ∧
    ((∃ c axis i,
      (findBestSplit exTlasNodes [1, 2]).1 = some (c, axis, i) ∧
      axis < 3 ∧ 1 ≤ i ∧ i < ([1, 2] : List ℕ).length ∧
      c = sahCost exTlasNodes (sortStateAt exTlasNodes [1, 2] axis) i ∧
      (∀ a, a < 3 → ∀ j, 1 ≤ j → j < ([1, 2] : List ℕ).length →
        Dy.leb c (sahCost exTlasNodes (sortStateAt exTlasNodes [1, 2] a) j)
          = true) ∧
      (∀ a, a < 3 → (sortStateAt exTlasNodes [1, 2] a).Perm [1, 2] ∧
        List.Sorted
          (fun i2 j2 =>
            Dy.leb (centerAt exTlasNodes a i2) (centerAt exTlasNodes a j2)
              = true)
          (sortStateAt exTlasNodes [1, 2] a)) ∧
      (splitLists exTlasNodes [1, 2]).1 ++ (splitLists exTlasNodes [1, 2]).2 =
        sortByAxis exTlasNodes axis (findBestSplit exTlasNodes [1, 2]).2 ∧
      (splitLists exTlasNodes [1, 2]).1.length = i) ∧
    ∀ (st2 : List TLASNode) (l2 : List ℕ),
      (findBestSplit st2 l2).1 = none →
      splitLists st2 l2 =
        ((findBestSplit st2 l2).2.take (l2.length / 2),
         (findBestSplit st2 l2).2.drop (l2.length / 2))) :=
  ⟨by decide, C3_sah_split exTlasNodes [1, 2] (by decide)⟩

/-! ## Ray traversal (bvhTraverse.wgsl)

The two traversal loops only compare and copy distances; the numeric
kernels they call are parameters of the embedding:

* `hit_aabb` derives `inverseDir = 1.0 / ray.direction` from the ray
  (computed once per trace call, lines 78 and 170) — the embedding
  parameterizes over the composite `fun ray min max => hit_aabb ray min
  max (1/ray.direction)`, since the claims hold for every value it
  returns;
* `hit_triangle` and the `Triangle` type are not defined anywhere in the
  provided sources (only referenced), so the triangle type is a type
  parameter and the intersector a function parameter;
* `normalize` (line 218) involves a square root, so it too is a function
  parameter;
* the f32 literals `0.001` (line 213) and `EPSILON` are parameters as
  well; `T_MAX = 10000` is exact.

A `var` without initializer is zero-valued in WGSL, which the explicit
zero records below reproduce.  The workgroup-shared `sharedStack` is
embedded as a function `ℕ → ℕ` updated at the written indices, with the
per-thread TLAS/BLAS windows at `threadIndex·32` and `threadIndex·32+16`
exactly as `get_tlas_stack_base` / `get_blas_stack_base` compute them. -/

/-- raytraceMain.wgsl `Ray`. -/
structure Ray where
  direction : Vec3
  origin : Vec3
deriving DecidableEq, Repr

/-- bvhTraverse.wgsl `Material` (lines 24–37). -/
structure MaterialS where
  albedo : Vec3
  specChance : Dy
  specColor : Vec3
  roughness : Dy
  emissionColor : Vec3
  emissionStrength : Dy
  refrColor : Vec3
  refrChance : Dy
  sssColor : Vec3
  sssStrength : Dy
  sssRadius : Dy
  ior : Dy
deriving DecidableEq, Repr

/-- bvhTraverse.wgsl `HitPoint` (lines 40–46). -/
structure HitPoint where
  material : MaterialS
  dist : Dy
  normal : Vec3
  hit : Bool
  from_front : Bool
deriving DecidableEq, Repr

/-- The WGSL zero value of `Material`. -/
def zeroMaterial : MaterialS :=
  ⟨⟨0, 0, 0⟩, 0, ⟨0, 0, 0⟩, 0, ⟨0, 0, 0⟩, 0, ⟨0, 0, 0⟩, 0, ⟨0, 0, 0⟩, 0, 0, 0⟩

/-- The WGSL zero value of `HitPoint` (what `var h : HitPoint;` holds). -/
def zeroHitPoint : HitPoint := ⟨zeroMaterial, 0, ⟨0, 0, 0⟩, false, false⟩

/-- bvhTraverse.wgsl `BLASNode` (lines 9–14): the shader-side view. -/
structure BLASNodeS where
  aabbMin : Vec3
  leftFirst : ℕ
  aabbMax : Vec3
  triCount : ℕ
deriving DecidableEq, Repr

instance : Inhabited BLASNodeS := ⟨⟨⟨0, 0, 0⟩, 0, ⟨0, 0, 0⟩, 0⟩⟩

/-- bvhTraverse.wgsl `TLASNode` (lines 16–22). -/
structure TLASNodeS where
  aabbMin : Vec3
  left : ℕ
  aabbMax : Vec3
  right : ℕ
  instanceIdx : ℕ
deriving DecidableEq, Repr

instance : Inhabited TLASNodeS := ⟨⟨⟨0, 0, 0⟩, 0, ⟨0, 0, 0⟩, 0, 0⟩⟩

/-- bvhTraverse.wgsl `BLASInstance` (lines 1–7). -/
structure BLASInstanceS where
  transform : List Dy
  invTransform : List Dy
  blasOffset : ℕ
  materialIdx : ℕ
deriving DecidableEq, Repr

instance : Inhabited BLASInstanceS := ⟨⟨[], [], 0, 0⟩⟩

instance : Inhabited MaterialS := ⟨zeroMaterial⟩

/-- `(m * vec4(d, 0)).xyz`: the linear part of a column-major 4×4 matrix
applied to a direction. -/
def matApplyDir (m : List Dy) (d : Vec3) : Vec3 :=
  ⟨Dy.add (Dy.add (Dy.mul (m.getD 0 0) d.x) (Dy.mul (m.getD 4 0) d.y))
      (Dy.mul (m.getD 8 0) d.z),
   Dy.add (Dy.add (Dy.mul (m.getD 1 0) d.x) (Dy.mul (m.getD 5 0) d.y))
      (Dy.mul (m.getD 9 0) d.z),
   Dy.add (Dy.add (Dy.mul (m.getD 2 0) d.x) (Dy.mul (m.getD 6 0) d.y))
      (Dy.mul (m.getD 10 0) d.z)⟩

/-- The `T_MAX` far sentinel (bvhTraverse.wgsl line 61). -/
def tMaxConst : Dy := 10000

/-- The hit record as raytraceMain.wgsl's `trace` initializes it before
`trace_tlas` (lines 133, 143–144): a zero-valued `var hit : HitPoint;`
with `hit.hit = false; hit.dist = T_MAX;`. -/
def initialHit : HitPoint :=
  { zeroHitPoint with hit := false, dist := tMaxConst }

/-- The storage buffers (group 2) and the numeric kernels the traversal
calls, as parameters of the embedding.  `defaultTri`/`getD` defaults
model reads out of buffer bounds, which the verified properties never
depend on. -/
structure TraceCtx (T : Type) where
  meshTriangles : List T
  blasNodes : List BLASNodeS
  blasInstances : List BLASInstanceS
  tlasNodes : List TLASNodeS
  triIdxInfo : List ℕ
  meshMaterial : List MaterialS
  defaultTri : T
  hitAabb : Ray → Vec3 → Vec3 → Dy
  hitTriangle : Ray → T → Dy → Dy → HitPoint → HitPoint
  normalizeFn : Vec3 → Vec3
  tMinC : Dy
  epsilonC : Dy

/-- The state of the `trace_blas` loop: the shared stack, the BLAS stack
pointer, `nearestHit`, and the in-out hit record. -/
structure BlasState where
  stack : ℕ → ℕ
  sp : ℕ
  nearestHit : Dy
  hitPt : HitPoint

/-- One triangle test of bvhTraverse.wgsl lines 201–222 (iteration `i` of
the bounded loop): seed a zero record with `dist = nearestHit`, call
`hit_triangle`, and tighten `nearestHit`/the hit record only when the
reported hit is strictly nearer. -/
def triTest {T : Type} (ctx : TraceCtx T) (oray : Ray)
    (inst : BLASInstanceS) (material : MaterialS) (leftFirst i : ℕ)
    (acc : Dy × HitPoint) : Dy × HitPoint :=
  let triIdx := ctx.triIdxInfo.getD (leftFirst + i) 0
  let triangle := ctx.meshTriangles.getD triIdx ctx.defaultTri
  let seed := { zeroHitPoint with hit := false, dist := acc.1 }
  let thp := ctx.hitTriangle oray triangle ctx.tMinC acc.1 seed
  if thp.hit && Dy.ltb thp.dist acc.1 then
    (thp.dist,
     { thp with
        normal := ctx.normalizeFn (matApplyDir inst.transform thp.normal)
        material := material })
  else acc

/-- Push a node index when its entry distance beats the current best
(bvhTraverse.wgsl lines 235–253). -/
def pushIf (cond : Bool) (idx pos : ℕ) (stack : ℕ → ℕ) (sp : ℕ) :
    (ℕ → ℕ) × ℕ :=
  if cond then (Function.update stack pos idx, sp + 1) else (stack, sp)

/-- One iteration of the `trace_blas` while loop (lines 185–255),
assuming `sp > 0`: pop a node; skip it if its AABB entry distance is not
strictly below `nearestHit`; at a leaf run the (≤ 2) triangle tests — the
`i = 0` test is unconditional here because the branch has
`triCount > 0` — and at an internal node push the (assumed adjacent)
children far-to-near, each only if its distance is strictly below
`nearestHit`. -/
def traceBlasStep {T : Type} (ctx : TraceCtx T) (oray : Ray)
    (inst : BLASInstanceS) (material : MaterialS) (base : ℕ)
    (st : BlasState) : BlasState :=
  let sp1 := st.sp - 1
  let nodeIdx := st.stack (base + sp1)
  let node := ctx.blasNodes.getD nodeIdx default
  let hitDistance := ctx.hitAabb oray node.aabbMin node.aabbMax
  if Dy.leb st.nearestHit hitDistance then { st with sp := sp1 }
  else if 0 < node.triCount then
    let acc1 := triTest ctx oray inst material node.leftFirst 0
      (st.nearestHit, st.hitPt)
    let acc2 := if 1 < node.triCount then
        triTest ctx oray inst material node.leftFirst 1 acc1
      else acc1
    { st with sp := sp1, nearestHit := acc2.1, hitPt := acc2.2 }
  else
    let c1 := node.leftFirst
    let c2 := node.leftFirst + 1
    let child1 := ctx.blasNodes.getD c1 default
    let child2 := ctx.blasNodes.getD c2 default
    let d1 := ctx.hitAabb oray child1.aabbMin child1.aabbMax
    let d2 := ctx.hitAabb oray child2.aabbMin child2.aabbMax
    if Dy.ltb d1 d2 then
      let p1 := pushIf (Dy.ltb d2 st.nearestHit) c2 (base + sp1) st.stack sp1
      let p2 := pushIf (Dy.ltb d1 st.nearestHit) c1 (base + p1.2) p1.1 p1.2
      { st with stack := p2.1, sp := p2.2 }
    else
      let p1 := pushIf (Dy.ltb d1 st.nearestHit) c1 (base + sp1) st.stack sp1
      let p2 := pushIf (Dy.ltb d2 st.nearestHit) c2 (base + p1.2) p1.1 p1.2
      { st with stack := p2.1, sp := p2.2 }

/-- The `trace_blas` while loop, with the (unbounded in WGSL, fuelled
here) iteration count explicit. -/
def traceBlasLoop {T : Type} (ctx : TraceCtx T) (oray : Ray)
    (inst : BLASInstanceS) (material : MaterialS) (base : ℕ) :
    ℕ → BlasState → BlasState
  | 0, st => st
  | fuel + 1, st =>
    if st.sp = 0 then st
    else traceBlasLoop ctx oray inst material base fuel
      (traceBlasStep ctx oray inst material base st)

/-- bvhTraverse.wgsl `trace_blas` (lines 157–259): transform the ray into
object space, cache the material, seed the BLAS stack window with the
instance's root offset, run the loop, and write `nearestHit` back into
the hit record.  (The `tlas_sp` pointer parameter is never used by the
body and is omitted.) -/
def traceBlas {T : Type} (ctx : TraceCtx T) (ray : Ray)
    (inst : BLASInstanceS) (hitPt : HitPoint) (threadIndex : ℕ)
    (stack : ℕ → ℕ) (fuel : ℕ) : HitPoint × (ℕ → ℕ) :=
  let nearestHit := hitPt.dist
  let oray : Ray := ⟨matApplyDir inst.invTransform ray.direction,
    matApply inst.invTransform ray.origin⟩
  let material := ctx.meshMaterial.getD inst.materialIdx default
  let base := threadIndex * 32 + 16
  let st0 : BlasState :=
    ⟨Function.update stack (base + 0) inst.blasOffset, 1, nearestHit,
      hitPt⟩
  let stf := traceBlasLoop ctx oray inst material base fuel st0
  ({ stf.hitPt with dist := stf.nearestHit }, stf.stack)

/-- The state of the `trace_tlas` loop. -/
structure TlasState where
  stack : ℕ → ℕ
  sp : ℕ
  hitPt : HitPoint

/-- One iteration of the `trace_tlas` while loop (lines 90–154), assuming
`sp > 0`; the returned flag is false exactly on the early `break` taken
when a hit closer than `EPSILON` is recorded (lines 113–116). -/
def traceTlasStep {T : Type} (ctx : TraceCtx T) (ray : Ray)
    (threadIndex blasFuel : ℕ) (st : TlasState) : TlasState × Bool :=
  let base := threadIndex * 32
  let sp1 := st.sp - 1
  let nodeIdx := st.stack (base + sp1)
  let node := ctx.tlasNodes.getD nodeIdx default
  let nodeDistance := ctx.hitAabb ray node.aabbMin node.aabbMax
  if Dy.leb st.hitPt.dist nodeDistance then ({ st with sp := sp1 }, true)
  else if node.left = 0 && node.right = 0 then
    let inst := ctx.blasInstances.getD node.instanceIdx default
    let blasHit0 := { zeroHitPoint with hit := false, dist := st.hitPt.dist }
    let res := traceBlas ctx ray inst blasHit0 threadIndex st.stack
      blasFuel
    if res.1.hit && Dy.ltb res.1.dist st.hitPt.dist then
      if Dy.ltb res.1.dist ctx.epsilonC then
        ({ stack := res.2, sp := sp1, hitPt := res.1 }, false)
      else
        ({ stack := res.2, sp := sp1, hitPt := res.1 }, true)
    else ({ st with stack := res.2, sp := sp1 }, true)
  else
    let leftIdx := node.left
    let rightIdx := node.right
    let leftChild := ctx.tlasNodes.getD leftIdx default
    let rightChild := ctx.tlasNodes.getD rightIdx default
    let leftDistance := ctx.hitAabb ray leftChild.aabbMin leftChild.aabbMax
    let rightDistance := ctx.hitAabb ray rightChild.aabbMin rightChild.aabbMax
    if Dy.ltb leftDistance rightDistance then
      let p1 := pushIf (decide (rightIdx ≠ 0) &&
        Dy.ltb rightDistance st.hitPt.dist) rightIdx (base + sp1) st.stack sp1
      let p2 := pushIf (decide (leftIdx ≠ 0) &&
        Dy.ltb leftDistance st.hitPt.dist) leftIdx (base + p1.2) p1.1 p1.2
      ({ st with stack := p2.1, sp := p2.2 }, true)
    else
      let p1 := pushIf (decide (leftIdx ≠ 0) &&
        Dy.ltb leftDistance st.hitPt.dist) leftIdx (base + sp1) st.stack sp1
      let p2 := pushIf (decide (rightIdx ≠ 0) &&
        Dy.ltb rightDistance st.hitPt.dist) rightIdx (base + p1.2) p1.1 p1.2
      ({ st with stack := p2.1, sp := p2.2 }, true)

/-- The `trace_tlas` while loop with fuel;  a false flag from the step is
the `break`. -/
def traceTlasLoop {T : Type} (ctx : TraceCtx T) (ray : Ray)
    (threadIndex blasFuel : ℕ) : ℕ → TlasState → TlasState
  | 0, st => st
  | fuel + 1, st =>
    if st.sp = 0 then st
    else
      let res := traceTlasStep ctx ray threadIndex blasFuel st
      if res.2 then traceTlasLoop ctx ray threadIndex blasFuel fuel res.1
      else res.1

/-- bvhTraverse.wgsl `trace_tlas` (lines 77–155): seed the TLAS stack
window with the root index 0 and run the loop on the caller's hit
record. -/
def traceTlas {T : Type} (ctx : TraceCtx T) (ray : Ray)
    (threadIndex blasFuel tlasFuel : ℕ) (hitPt : HitPoint)
    (stack : ℕ → ℕ) : TlasState :=
  let base := threadIndex * 32
  traceTlasLoop ctx ray threadIndex blasFuel tlasFuel
    ⟨Function.update stack (base + 0) 0, 1, hitPt⟩

theorem Dy.ltb_trans {a b c : Dy} (h1 : Dy.ltb a b = true)
    (h2 : Dy.ltb b c = true) : Dy.ltb a c = true :=
  Dy.ltb_iff.mpr (lt_trans (Dy.ltb_iff.mp h1) (Dy.ltb_iff.mp h2))

theorem triTest_cases {T : Type} (ctx : TraceCtx T) (oray : Ray)
    (inst : BLASInstanceS) (material : MaterialS) (lf i : ℕ)
    (acc : Dy × HitPoint) :
    triTest ctx oray inst material lf i acc = acc ∨
      Dy.ltb (triTest ctx oray inst material lf i acc).1 acc.1 = true := by
  simp only [triTest]
  split
  · next h =>
      simp only [Bool.and_eq_true] at h
      exact Or.inr h.2
  · exact Or.inl rfl

theorem triTest_eq_of_nohit {T : Type} (ctx : TraceCtx T)
    (hno : ∀ r t a b s, (ctx.hitTriangle r t a b s).hit = false)
    (oray : Ray) (inst : BLASInstanceS) (material : MaterialS)
    (lf i : ℕ) (acc : Dy × HitPoint) :
    triTest ctx oray inst material lf i acc = acc := by
  simp [triTest, hno]

theorem triTestPair_cases {T : Type} (ctx : TraceCtx T) (oray : Ray)
    (inst : BLASInstanceS) (material : MaterialS) (lf : ℕ) (c : Prop)
    [Decidable c] (acc : Dy × HitPoint) :
    (if c then triTest ctx oray inst material lf 1
        (triTest ctx oray inst material lf 0 acc)
      else triTest ctx oray inst material lf 0 acc) = acc ∨
    Dy.ltb (if c then triTest ctx oray inst material lf 1
        (triTest ctx oray inst material lf 0 acc)
      else triTest ctx oray inst material lf 0 acc).1 acc.1 = true := by
  split
  · rcases triTest_cases ctx oray inst material lf 1
        (triTest ctx oray inst material lf 0 acc) with h2 | h2
    · rw [h2]
      exact triTest_cases ctx oray inst material lf 0 acc
    · rcases triTest_cases ctx oray inst material lf 0 acc with h1 | h1
      · right
        rw [h1] at h2 ⊢
        exact h2
      · exact Or.inr (Dy.ltb_trans h2 h1)
  · exact triTest_cases ctx oray inst material lf 0 acc

theorem traceBlasStep_cases {T : Type} (ctx : TraceCtx T) (oray : Ray)
    (inst : BLASInstanceS) (material : MaterialS) (base : ℕ)
    (st : BlasState) :
    ((traceBlasStep ctx oray inst material base st).nearestHit =
        st.nearestHit ∧
      (traceBlasStep ctx oray inst material base st).hitPt = st.hitPt) ∨
    Dy.ltb (traceBlasStep ctx oray inst material base st).nearestHit
      st.nearestHit = true := by
  simp only [traceBlasStep]
  split
  · exact Or.inl ⟨rfl, rfl⟩
  · split
    · rcases triTestPair_cases ctx oray inst material
          (ctx.blasNodes.getD (st.stack (base + (st.sp - 1)))
            default).leftFirst
          (1 < (ctx.blasNodes.getD (st.stack (base + (st.sp - 1)))
            default).triCount)
          (st.nearestHit, st.hitPt) with h | h
      · exact Or.inl ⟨by rw [h], by rw [h]⟩
      · exact Or.inr h
    · split
      · exact Or.inl ⟨rfl, rfl⟩
      · exact Or.inl ⟨rfl, rfl⟩

theorem traceBlasStep_nohit {T : Type} (ctx : TraceCtx T)
    (hno : ∀ r t a b s, (ctx.hitTriangle r t a b s).hit = false)
    (oray : Ray) (inst : BLASInstanceS) (material : MaterialS) (base : ℕ)
    (st : BlasState) :
    (traceBlasStep ctx oray inst material base st).nearestHit =
      st.nearestHit ∧
    (traceBlasStep ctx oray inst material base st).hitPt = st.hitPt := by
  simp only [traceBlasStep]
  split
  · exact ⟨rfl, rfl⟩
  · split
    · simp [triTest_eq_of_nohit ctx hno]
    · split
      · exact ⟨rfl, rfl⟩
      · exact ⟨rfl, rfl⟩

theorem traceBlasLoop_le {T : Type} (ctx : TraceCtx T) (oray : Ray)
    (inst : BLASInstanceS) (material : MaterialS) (base fuel : ℕ)
    (st : BlasState) :
    Dy.leb (traceBlasLoop ctx oray inst material base fuel st).nearestHit
      st.nearestHit = true := by
  induction fuel generalizing st with
  | zero => exact Dy.leb_refl _
  | succ n ih =>
    simp only [traceBlasLoop]
    split
    · exact Dy.leb_refl _
    · refine Dy.leb_trans (ih _) ?_
      rcases traceBlasStep_cases ctx oray inst material base st with ⟨h, _⟩ | h
      · rw [h]
        exact Dy.leb_refl _
      · exact Dy.leb_of_ltb h

theorem traceBlasLoop_nohit {T : Type} (ctx : TraceCtx T)
    (hno : ∀ r t a b s, (ctx.hitTriangle r t a b s).hit = false)
    (oray : Ray) (inst : BLASInstanceS) (material : MaterialS)
    (base fuel : ℕ) (st : BlasState) :
    (traceBlasLoop ctx oray inst material base fuel st).nearestHit =
      st.nearestHit ∧
    (traceBlasLoop ctx oray inst material base fuel st).hitPt = st.hitPt := by
  induction fuel generalizing st with
  | zero => exact ⟨rfl, rfl⟩
  | succ n ih =>
    simp only [traceBlasLoop]
    split
    · exact ⟨rfl, rfl⟩
    · obtain ⟨h1, h2⟩ := traceBlasStep_nohit ctx hno oray inst material base st
      obtain ⟨g1, g2⟩ := ih (traceBlasStep ctx oray inst material base st)
      exact ⟨g1.trans h1, g2.trans h2⟩

theorem traceBlas_dist_le {T : Type} (ctx : TraceCtx T) (ray : Ray)
    (inst : BLASInstanceS) (hitPt : HitPoint) (ti : ℕ) (stack : ℕ → ℕ)
    (fuel : ℕ) :
    Dy.leb (traceBlas ctx ray inst hitPt ti stack fuel).1.dist
      hitPt.dist = true := by
  simp only [traceBlas]
  exact traceBlasLoop_le ctx _ inst _ _ fuel _

theorem traceBlas_nohit {T : Type} (ctx : TraceCtx T)
    (hno : ∀ r t a b s, (ctx.hitTriangle r t a b s).hit = false)
    (ray : Ray) (inst : BLASInstanceS) (hitPt : HitPoint) (ti : ℕ)
    (stack : ℕ → ℕ) (fuel : ℕ) :
    (traceBlas ctx ray inst hitPt ti stack fuel).1 = hitPt := by
  simp only [traceBlas]
  obtain ⟨h1, h2⟩ := traceBlasLoop_nohit ctx hno
    ⟨matApplyDir inst.invTransform ray.direction,
      matApply inst.invTransform ray.origin⟩
    inst (ctx.meshMaterial.getD inst.materialIdx default) (ti * 32 + 16) fuel
    ⟨Function.update stack (ti * 32 + 16 + 0) inst.blasOffset, 1,
      hitPt.dist, hitPt⟩
  rw [h1, h2]

theorem traceTlasStep_cases {T : Type} (ctx : TraceCtx T) (ray : Ray)
    (ti bf : ℕ) (st : TlasState) :
    (traceTlasStep ctx ray ti bf st).1.hitPt = st.hitPt ∨
    Dy.ltb (traceTlasStep ctx ray ti bf st).1.hitPt.dist
      st.hitPt.dist = true := by
  simp only [traceTlasStep]
  split
  · exact Or.inl rfl
  · split
    · split
      · next h =>
          simp only [Bool.and_eq_true] at h
          split
          · exact Or.inr h.2
          · exact Or.inr h.2
      · exact Or.inl rfl
    · split
      · exact Or.inl rfl
      · exact Or.inl rfl

theorem traceTlasStep_nohit {T : Type} (ctx : TraceCtx T)
    (hno : ∀ r t a b s, (ctx.hitTriangle r t a b s).hit = false)
    (ray : Ray) (ti bf : ℕ) (st : TlasState) :
    (traceTlasStep ctx ray ti bf st).1.hitPt = st.hitPt := by
  simp only [traceTlasStep]
  split
  · rfl
  · split
    · rw [traceBlas_nohit ctx hno]
      simp
    · split
      · rfl
      · rfl

theorem traceTlasLoop_le {T : Type} (ctx : TraceCtx T) (ray : Ray)
    (ti bf fuel : ℕ) (st : TlasState) :
    Dy.leb (traceTlasLoop ctx ray ti bf fuel st).hitPt.dist
      st.hitPt.dist = true := by
  induction fuel generalizing st with
  | zero => exact Dy.leb_refl _
  | succ n ih =>
    simp only [traceTlasLoop]
    split
    · exact Dy.leb_refl _
    · split
      · refine Dy.leb_trans (ih _) ?_
        rcases traceTlasStep_cases ctx ray ti bf st with h | h
        · rw [h]
          exact Dy.leb_refl _
        · exact Dy.leb_of_ltb h
      · rcases traceTlasStep_cases ctx ray ti bf st with h | h
        · rw [h]
          exact Dy.leb_refl _
        · exact Dy.leb_of_ltb h

theorem traceTlasLoop_nohit {T : Type} (ctx : TraceCtx T)
    (hno : ∀ r t a b s, (ctx.hitTriangle r t a b s).hit = false)
    (ray : Ray) (ti bf fuel : ℕ) (st : TlasState) :
    (traceTlasLoop ctx ray ti bf fuel st).hitPt = st.hitPt := by
  induction fuel generalizing st with
  | zero => rfl
  | succ n ih =>
    simp only [traceTlasLoop]
    split
    · rfl
    · split
      · exact (ih _).trans (traceTlasStep_nohit ctx hno ray ti bf st)
      · exact traceTlasStep_nohit ctx hno ray ti bf st

theorem traceTlas_dist_le {T : Type} (ctx : TraceCtx T) (ray : Ray)
    (ti bf tf : ℕ) (hitPt : HitPoint) (stack : ℕ → ℕ) :
    Dy.leb (traceTlas ctx ray ti bf tf hitPt stack).hitPt.dist
      hitPt.dist = true := by
  simp only [traceTlas]
  exact traceTlasLoop_le ctx ray ti bf tf _

theorem traceTlas_nohit {T : Type} (ctx : TraceCtx T)
    (hno : ∀ r t a b s, (ctx.hitTriangle r t a b s).hit = false)
    (ray : Ray) (ti bf tf : ℕ) (hitPt : HitPoint) (stack : ℕ → ℕ) :
    (traceTlas ctx ray ti bf tf hitPt stack).hitPt = hitPt := by
  simp only [traceTlas]
  exact traceTlasLoop_nohit ctx hno ray ti bf tf _

/-- **C7** (counterexample to the stated initialization): the hit record
raytraceMain.wgsl hands to `trace_tlas` starts with `hit = false` but
with distance `T_MAX = 10000` — a finite far-plane sentinel, not `+∞`:
it is strictly below the representable value 10001, which a record
seeded at `+∞` would not be. -/
theorem C7_counterexample :
    initialHit.hit = false ∧ initialHit.dist = tMaxConst ∧
      Dy.ltb initialHit.dist (Dy.ofInt 10001) = true :=
  ⟨rfl, rfl, by decide⟩

/-- **C7** (amended): during a single ray's traversal, the record
raytraceMain seeds `trace_tlas` with starts at `hit = false` and
distance `T_MAX = 10000` (a finite sentinel rather than `+∞`); every
iteration of the TLAS loop either leaves the hit record unchanged or
strictly decreases its distance, and every iteration of a BLAS loop
does the same to its `(nearestHit, record)` pair, so the distance
returned by `trace_blas` and by `trace_tlas` never exceeds the distance
they were given; and when the triangle intersector never reports a hit
(a ray that intersects nothing in the scene), the whole traversal
finishes with `hit = false`. -/
theorem C7_traversal {T : Type} (ctx : TraceCtx T) (ray oray : Ray)
    (threadIndex blasFuel tlasFuel blasFuel2 : ℕ) (hitPt : HitPoint)
    (stack : ℕ → ℕ) (inst : BLASInstanceS) (material : MaterialS)
    (base : ℕ) (bst : BlasState) (st : TlasState) :
    (initialHit.hit = false ∧ initialHit.dist = tMaxConst) ∧
    ((traceTlasStep ctx ray threadIndex blasFuel st).1.hitPt = st.hitPt ∨
      Dy.ltb (traceTlasStep ctx ray threadIndex blasFuel st).1.hitPt.dist
        st.hitPt.dist = true) ∧
    (((traceBlasStep ctx oray inst material base bst).nearestHit =
        bst.nearestHit ∧
      (traceBlasStep ctx oray inst material base bst).hitPt = bst.hitPt) ∨
      Dy.ltb (traceBlasStep ctx oray inst material base bst).nearestHit
        bst.nearestHit = true) ∧
    Dy.leb (traceBlas ctx ray inst hitPt threadIndex stack blasFuel2).1.dist
      hitPt.dist = true ∧
    Dy.leb (traceTlas ctx ray threadIndex blasFuel tlasFuel hitPt
        stack).hitPt.dist hitPt.dist = true ∧
    ((∀ r t a b s, (ctx.hitTriangle r t a b s).hit = false) →
      (traceTlas ctx ray threadIndex blasFuel tlasFuel initialHit
        stack).hitPt.hit = false) :=
  ⟨⟨rfl, rfl⟩,
   traceTlasStep_cases ctx ray threadIndex blasFuel st,
   traceBlasStep_cases ctx oray inst material base bst,
   traceBlas_dist_le ctx ray inst hitPt threadIndex stack blasFuel2,
   traceTlas_dist_le ctx ray threadIndex blasFuel tlasFuel hitPt stack,
   fun hno => by
     rw [traceTlas_nohit ctx hno ray threadIndex blasFuel tlasFuel
       initialHit stack]
     rfl⟩

/-- A concrete trace context over a trivial triangle type whose
intersector never hits, for evaluating `C7_traversal`. -/
def exCtx : TraceCtx Unit where
  meshTriangles := []
  blasNodes := []
  blasInstances := []
  tlasNodes := []
  triIdxInfo := []
  meshMaterial := []
  defaultTri := ()
  hitAabb := fun _ _ _ => 0
  hitTriangle := fun _ _ _ _ _ => zeroHitPoint
  normalizeFn := fun v => v
  tMinC := 0
  epsilonC := 0

/-- A concrete ray for evaluating `C7_traversal`. -/
def exRay : Ray := ⟨⟨1, 0, 0⟩, ⟨0, 0, 0⟩⟩

/-- `C7_traversal` applied at the concrete context `exCtx`: the
never-hitting intersector hypothesis holds there, and a full traversal
from the initial record finishes with `hit = false`. -/
theorem C7_traversal_witness :
    (traceTlas exCtx exRay 0 3 3 initialHit (fun _ => 0)).hitPt.hit =
      false :=
  (C7_traversal exCtx exRay exRay 0 3 3 3 initialHit (fun _ => 0)
    default default 0 ⟨fun _ => 0, 0, 0, initialHit⟩
    ⟨fun _ => 0, 0, initialHit⟩).2.2.2.2.2 (fun _ _ _ _ _ => rfl)
